import Mathlib

/-!
Verification development for the cost-estimation engine of the
data-provider-cost-estimator repository (src/src/js/cost-engine.js, the
multi-system variant in src/unnamed/part_001, and combineSystemResults in
src/src/js/main.js).

Embedding choices, documented once here:
the JavaScript number type is modelled by JSNum below: an exact rational
for finite values plus positive infinity, negative infinity and NaN.
IEEE-754 rounding is not modelled (all rationals of the verified claims,
such as 0.025, 1.5 and their products, are computed exactly by the engine
on the claim inputs); the signed zero -0 is identified with 0.
Dynamic evaluation of the sanitized arithmetic string by the Function
constructor is modelled by a tokenizer and recursive-descent
parser-evaluator over the sanitized character set; a JavaScript
SyntaxError or runtime TypeError of that evaluation is modelled as the
parser returning none (both are caught by the same try block in the
source and yield 0). Comment-forming sequences inside the sanitized
string are treated as evaluation errors.
-/

/-- JavaScript number: finite rational, plus or minus infinity, or NaN. -/
inductive JSNum where
  | num (q : ℚ)
  | posInf
  | negInf
  | nan
deriving DecidableEq, Repr

namespace JSNum

/-- The isNaN check of JavaScript. -/
def isNaN : JSNum → Bool
  | nan => true
  | _ => false

end JSNum

/-- JavaScript addition on JSNum. -/
def jsAdd : JSNum → JSNum → JSNum
  | JSNum.num a, JSNum.num b => JSNum.num (a + b)
  | JSNum.nan, _ => JSNum.nan
  | _, JSNum.nan => JSNum.nan
  | JSNum.posInf, JSNum.negInf => JSNum.nan
  | JSNum.negInf, JSNum.posInf => JSNum.nan
  | JSNum.posInf, _ => JSNum.posInf
  | _, JSNum.posInf => JSNum.posInf
  | JSNum.negInf, _ => JSNum.negInf
  | _, JSNum.negInf => JSNum.negInf

/-- JavaScript unary minus on JSNum (signed zero identified with zero). -/
def jsNeg : JSNum → JSNum
  | JSNum.num a => JSNum.num (-a)
  | JSNum.posInf => JSNum.negInf
  | JSNum.negInf => JSNum.posInf
  | JSNum.nan => JSNum.nan

/-- JavaScript subtraction on JSNum. -/
def jsSub (a b : JSNum) : JSNum := jsAdd a (jsNeg b)

/-- JavaScript multiplication on JSNum. -/
def jsMul : JSNum → JSNum → JSNum
  | JSNum.num a, JSNum.num b => JSNum.num (a * b)
  | JSNum.nan, _ => JSNum.nan
  | _, JSNum.nan => JSNum.nan
  | JSNum.posInf, JSNum.posInf => JSNum.posInf
  | JSNum.posInf, JSNum.negInf => JSNum.negInf
  | JSNum.negInf, JSNum.posInf => JSNum.negInf
  | JSNum.negInf, JSNum.negInf => JSNum.posInf
  | JSNum.posInf, JSNum.num b =>
      if b = 0 then JSNum.nan else if 0 < b then JSNum.posInf else JSNum.negInf
  | JSNum.num a, JSNum.posInf =>
      if a = 0 then JSNum.nan else if 0 < a then JSNum.posInf else JSNum.negInf
  | JSNum.negInf, JSNum.num b =>
      if b = 0 then JSNum.nan else if 0 < b then JSNum.negInf else JSNum.posInf
  | JSNum.num a, JSNum.negInf =>
      if a = 0 then JSNum.nan else if 0 < a then JSNum.negInf else JSNum.posInf

/-- JavaScript division on JSNum: dividing a nonzero finite value by zero
produces a signed infinity, zero by zero produces NaN (signed zero is
identified with zero, so the plus-zero rules are used). -/
def jsDiv : JSNum → JSNum → JSNum
  | JSNum.num a, JSNum.num b =>
      if b = 0 then
        (if a = 0 then JSNum.nan else if 0 < a then JSNum.posInf else JSNum.negInf)
      else JSNum.num (a / b)
  | JSNum.nan, _ => JSNum.nan
  | _, JSNum.nan => JSNum.nan
  | JSNum.num _, JSNum.posInf => JSNum.num 0
  | JSNum.num _, JSNum.negInf => JSNum.num 0
  | JSNum.posInf, JSNum.num b => if 0 ≤ b then JSNum.posInf else JSNum.negInf
  | JSNum.negInf, JSNum.num b => if 0 ≤ b then JSNum.negInf else JSNum.posInf
  | JSNum.posInf, JSNum.posInf => JSNum.nan
  | JSNum.posInf, JSNum.negInf => JSNum.nan
  | JSNum.negInf, JSNum.posInf => JSNum.nan
  | JSNum.negInf, JSNum.negInf => JSNum.nan

/-- JavaScript exponentiation on JSNum for the sanitized-string star-star
operator. Exact on integer exponents; a finite non-integer exponent is
outside the rational embedding and is mapped to NaN (no verified claim
evaluates such an exponent). -/
def jsPow : JSNum → JSNum → JSNum
  | a, JSNum.num e =>
      if e = 0 then JSNum.num 1
      else
        match a with
        | JSNum.num q =>
            if e.den = 1 then
              (if 0 < e.num then JSNum.num (q ^ e.num.toNat)
               else if q = 0 then JSNum.posInf
               else JSNum.num ((q ^ (-e.num).toNat)⁻¹))
            else JSNum.nan
        | JSNum.posInf => if 0 < e then JSNum.posInf else JSNum.num 0
        | JSNum.negInf =>
            if 0 < e then
              (if e.den = 1 ∧ e.num % 2 ≠ 0 then JSNum.negInf else JSNum.posInf)
            else JSNum.num 0
        | JSNum.nan => JSNum.nan
  | _, JSNum.nan => JSNum.nan
  | a, JSNum.posInf =>
      match a with
      | JSNum.num q => if q = 1 ∨ q = -1 then JSNum.nan else if 1 < |q| then JSNum.posInf else JSNum.num 0
      | JSNum.nan => JSNum.nan
      | _ => JSNum.posInf
  | a, JSNum.negInf =>
      match a with
      | JSNum.num q => if q = 1 ∨ q = -1 then JSNum.nan else if 1 < |q| then JSNum.num 0 else JSNum.posInf
      | JSNum.nan => JSNum.nan
      | _ => JSNum.num 0

/-- Word character of the JavaScript regex classes backslash-w and
backslash-b: ASCII letter, digit, or underscore. -/
def isWordChar (c : Char) : Bool := c.isAlpha || c.isDigit || c = '_'

/-- Whitespace of the JavaScript regex class backslash-s (ASCII part). -/
def jsWhitespaceB (c : Char) : Bool :=
  c = ' ' || c = '\t' || c = '\n' || c = '\r' || c = '\x0B' || c = '\x0C'

/-- Character kept by the sanitization step of evaluateExpression:
digit, arithmetic operator, parenthesis, decimal point, or whitespace. -/
def isAllowedChar (c : Char) : Bool :=
  c.isDigit || c = '+' || c = '-' || c = '*' || c = '/' ||
  c = '(' || c = ')' || c = '.' || jsWhitespaceB c

/-- Does the pattern occur as a prefix of the string (character lists)? -/
def startsWithL : List Char → List Char → Bool
  | [], _ => true
  | _ :: _, [] => false
  | p :: ps, c :: cs => p = c && startsWithL ps cs

/-- Does the pattern occur as a substring of the string (character lists)? -/
def containsSub (pat : List Char) : List Char → Bool
  | [] => startsWithL pat []
  | s@(_ :: t) => startsWithL pat s || containsSub pat t

/-- The word-boundary condition of the substitution regex after a match
that ends in a word character: holds at end of input or before a
non-word character. -/
def boundaryOkB : List Char → Bool
  | [] => true
  | c :: _ => !(isWordChar c)

/-- Global regex replacement used by the variable-substitution passes of
evaluateExpression: replaces every occurrence of the sigil character
followed by the key followed by a word boundary, scanning left to right
without rescanning the inserted replacement, exactly as a global
String.replace does. -/
def replaceVarGo (key val : List Char) : ℕ → List Char → List Char
  | 0, s => s
  | _ + 1, [] => []
  | fuel + 1, c :: rest =>
      if c = '$' ∧ startsWithL key rest = true ∧ boundaryOkB (rest.drop key.length) = true then
        val ++ replaceVarGo key val fuel (rest.drop key.length)
      else
        c :: replaceVarGo key val fuel rest

/-- The replacement scan with its sufficient fuel: every step consumes at
least one character, so one beyond the input length always suffices. -/
def replaceVarL (key val s : List Char) : List Char := replaceVarGo key val (s.length + 1) s

/-- String wrapper for replaceVarL. -/
def replaceVar (s key val : String) : String := ⟨replaceVarL key.data val.data s.data⟩

/-- Digit character for a value below ten. -/
def digitChar (d : ℕ) : Char := Char.ofNat (48 + d)

/-- Decimal digits of a natural number, most significant first
(fuel-driven; the fuel n + 1 always suffices since n / 10 < n). -/
def natToCharsGo : ℕ → ℕ → List Char
  | 0, _ => []
  | fuel + 1, n =>
      if n < 10 then [digitChar n]
      else natToCharsGo fuel (n / 10) ++ [digitChar (n % 10)]

/-- Decimal digits of a natural number. -/
def natToChars (n : ℕ) : List Char := natToCharsGo (n + 1) n

/-- Fractional decimal digits of rem / den, up to the given number of
digits, stopping when the remainder reaches zero. -/
def fracChars : ℕ → ℕ → ℕ → List Char
  | _, _, 0 => []
  | rem, den, fuel + 1 =>
      if rem = 0 then []
      else digitChar (rem * 10 / den) :: fracChars (rem * 10 % den) den fuel

/-- JavaScript number-to-string conversion as used when a context value is
substituted into an expression. Exact for integers and decimal fractions
of up to thirty digits, which covers every value the verified claims
substitute; other rationals (none of which an IEEE double represents
exactly either) are truncated. -/
def numToString (q : ℚ) : String :=
  (if q < 0 then "-" else "") ++
  ⟨natToChars (q.num.natAbs / q.den)⟩ ++
  (if q.num.natAbs % q.den = 0 then "" else "." ++ ⟨fracChars (q.num.natAbs % q.den) q.den 30⟩)

/-- Token of the sanitized arithmetic language evaluated by the Function
constructor: numeric literal, the four operators, star-star, parentheses. -/
inductive Tok where
  | lit (q : ℚ)
  | plus
  | minus
  | star
  | slash
  | powOp
  | lparen
  | rparen
deriving DecidableEq, Repr

/-- Value of a list of decimal digit characters. -/
def digitsVal (ds : List Char) : ℕ :=
  ds.foldl (fun acc c => 10 * acc + (c.toNat - 48)) 0

/-- Value of a numeric literal with integer digits and fraction digits. -/
def litVal (ds fs : List Char) : ℚ :=
  (digitsVal ds : ℚ) + (digitsVal fs : ℚ) / (10 ^ fs.length : ℚ)

/-- Tokenizer for the sanitized arithmetic string, following the
JavaScript lexer on this character set with maximal munch: numeric
literals are digits with an optional fraction, or a point followed by
digits; adjacent plus-plus and minus-minus form increment tokens, and
slash-slash and slash-star start comments, all of which make the
evaluation fail on sanitized input (no identifier operand or comment
body survives sanitization), so they are modelled as lexer failure.
Fuel-driven; each step consumes at least one character, so fuel equal to
the length of the input plus one always suffices. -/
def tokenizeGo : ℕ → List Char → Option (List Tok)
  | 0, _ => none
  | _ + 1, [] => some []
  | fuel + 1, c :: rest =>
      if jsWhitespaceB c then tokenizeGo fuel rest
      else if c.isDigit then
        match (c :: rest).takeWhile Char.isDigit, (c :: rest).dropWhile Char.isDigit with
        | ds, '.' :: r2 =>
            (tokenizeGo fuel (r2.dropWhile Char.isDigit)).map
              (fun ts => Tok.lit (litVal ds (r2.takeWhile Char.isDigit)) :: ts)
        | ds, r1 => (tokenizeGo fuel r1).map (fun ts => Tok.lit (litVal ds []) :: ts)
      else if c = '.' then
        match rest.takeWhile Char.isDigit with
        | [] => none
        | fs => (tokenizeGo fuel (rest.dropWhile Char.isDigit)).map
            (fun ts => Tok.lit (litVal [] fs) :: ts)
      else if c = '+' then
        match rest with
        | '+' :: _ => none
        | _ => (tokenizeGo fuel rest).map (Tok.plus :: ·)
      else if c = '-' then
        match rest with
        | '-' :: _ => none
        | _ => (tokenizeGo fuel rest).map (Tok.minus :: ·)
      else if c = '*' then
        match rest with
        | '*' :: r2 => (tokenizeGo fuel r2).map (Tok.powOp :: ·)
        | _ => (tokenizeGo fuel rest).map (Tok.star :: ·)
      else if c = '/' then
        match rest with
        | '/' :: _ => none
        | '*' :: _ => none
        | _ => (tokenizeGo fuel rest).map (Tok.slash :: ·)
      else if c = '(' then (tokenizeGo fuel rest).map (Tok.lparen :: ·)
      else if c = ')' then (tokenizeGo fuel rest).map (Tok.rparen :: ·)
      else none

/-- Tokenize a sanitized character list. -/
def tokenize (s : List Char) : Option (List Tok) := tokenizeGo (s.length + 1) s

/-!
Recursive-descent parser-evaluator for the token stream, mirroring the
JavaScript expression grammar restricted to the sanitized character set:
additive over multiplicative over exponentiation (right-associative) over
unary over primary. A unary expression immediately followed by star-star
is a JavaScript SyntaxError and is rejected. All functions are
fuel-driven; jsEval supplies ample fuel.
-/
mutual

def parseExpr : ℕ → List Tok → Option (JSNum × List Tok)
  | 0, _ => none
  | fuel + 1, ts =>
      match parseTerm fuel ts with
      | none => none
      | some (v, r) => parseExprLoop fuel v r

def parseExprLoop : ℕ → JSNum → List Tok → Option (JSNum × List Tok)
  | 0, _, _ => none
  | fuel + 1, acc, ts =>
      match ts with
      | Tok.plus :: r =>
          match parseTerm fuel r with
          | none => none
          | some (v, r2) => parseExprLoop fuel (jsAdd acc v) r2
      | Tok.minus :: r =>
          match parseTerm fuel r with
          | none => none
          | some (v, r2) => parseExprLoop fuel (jsSub acc v) r2
      | _ => some (acc, ts)

def parseTerm : ℕ → List Tok → Option (JSNum × List Tok)
  | 0, _ => none
  | fuel + 1, ts =>
      match parseFactor fuel ts with
      | none => none
      | some (v, r) => parseTermLoop fuel v r

def parseTermLoop : ℕ → JSNum → List Tok → Option (JSNum × List Tok)
  | 0, _, _ => none
  | fuel + 1, acc, ts =>
      match ts with
      | Tok.star :: r =>
          match parseFactor fuel r with
          | none => none
          | some (v, r2) => parseTermLoop fuel (jsMul acc v) r2
      | Tok.slash :: r =>
          match parseFactor fuel r with
          | none => none
          | some (v, r2) => parseTermLoop fuel (jsDiv acc v) r2
      | _ => some (acc, ts)

def parseFactor : ℕ → List Tok → Option (JSNum × List Tok)
  | 0, _ => none
  | fuel + 1, ts =>
      match ts with
      | Tok.plus :: _ =>
          match parseUnary fuel ts with
          | some (_, Tok.powOp :: _) => none
          | r => r
      | Tok.minus :: _ =>
          match parseUnary fuel ts with
          | some (_, Tok.powOp :: _) => none
          | r => r
      | _ => parsePow fuel ts

def parseUnary : ℕ → List Tok → Option (JSNum × List Tok)
  | 0, _ => none
  | fuel + 1, ts =>
      match ts with
      | Tok.plus :: r => parseUnary fuel r
      | Tok.minus :: r =>
          match parseUnary fuel r with
          | none => none
          | some (v, r2) => some (jsNeg v, r2)
      | _ => parsePrimary fuel ts

def parsePow : ℕ → List Tok → Option (JSNum × List Tok)
  | 0, _ => none
  | fuel + 1, ts =>
      match parsePrimary fuel ts with
      | none => none
      | some (b, Tok.powOp :: r) =>
          match parseFactor fuel r with
          | none => none
          | some (e, r2) => some (jsPow b e, r2)
      | some (b, r) => some (b, r)

def parsePrimary : ℕ → List Tok → Option (JSNum × List Tok)
  | 0, _ => none
  | fuel + 1, ts =>
      match ts with
      | Tok.lit q :: r => some (JSNum.num q, r)
      | Tok.lparen :: r =>
          match parseExpr fuel r with
          | some (v, Tok.rparen :: r2) => some (v, r2)
          | _ => none
      | _ => none

end

/-- Evaluate a complete sanitized arithmetic string the way the Function
constructor call of evaluateExpression does: none models a thrown
SyntaxError or TypeError (leftover tokens, malformed input), some gives
the numeric result. -/
def jsEval (s : List Char) : Option JSNum :=
  match tokenize s with
  | none => none
  | some ts =>
      match parseExpr (10 * ts.length + 10) ts with
      | some (v, []) => some v
      | _ => none

/-- Variable context: a JavaScript object mapping variable names to finite
numeric values (built from configuration numbers and parseFloat results,
which the callers coerce to finite numbers). List order is object
iteration order. -/
abbrev Ctx := List (String × ℚ)

/-- First-match association lookup, the JavaScript property read on an
object without duplicate keys. -/
def alookup {α : Type} : List (String × α) → String → Option α
  | [], _ => none
  | p :: ps, k => if p.1 = k then some p.2 else alookup ps k

/-- First variable-substitution pass of evaluateExpression: for each
context entry in iteration order, globally replace sigil-key-boundary by
the stringified value (every context value is a number, hence neither
undefined nor null, so no entry is skipped). -/
def substPass1 (e : String) (ctx : Ctx) : String :=
  ctx.foldl (fun acc p => replaceVar acc p.1 (numToString p.2)) e

/-- The matches of the unreplaced-variable scan: every maximal run of word
characters directly preceded by the sigil. -/
def findUnreplacedGo : ℕ → List Char → List (List Char)
  | 0, _ => []
  | _ + 1, [] => []
  | fuel + 1, '$' :: rest =>
      (match rest.takeWhile isWordChar with
       | [] => findUnreplacedGo fuel rest
       | name => name :: findUnreplacedGo fuel (rest.dropWhile isWordChar))
  | fuel + 1, _ :: rest => findUnreplacedGo fuel rest

/-- The unreplaced-variable scan with its sufficient fuel. -/
def findUnreplacedL (s : List Char) : List (List Char) := findUnreplacedGo (s.length + 1) s

/-- Second substitution pass of evaluateExpression: every unreplaced
variable found by the scan is replaced (sigil-name-boundary, globally)
with the literal 0. -/
def substPass2 (s : String) : String :=
  (findUnreplacedL s.data).foldl (fun acc name => replaceVar acc ⟨name⟩ ("0")) s

/-- The full substitution pipeline of evaluateExpression before
sanitization: context substitution, then zeroing of unreplaced
variables. -/
def substPipeline (e : String) (ctx : Ctx) : String := substPass2 (substPass1 e ctx)

/-- Sanitization step: strip every character that is not a digit,
an arithmetic operator, a parenthesis, a decimal point or whitespace. -/
def sanitize (s : String) : String := ⟨s.data.filter isAllowedChar⟩

/-- The emptiness test applied to the sanitized string (its trim equals
the empty string exactly when every character is whitespace). -/
def trimEmpty (s : String) : Bool := s.data.all jsWhitespaceB

/-- Final step of evaluateExpression on the sanitized string: empty or
whitespace-only gives 0, an evaluation error gives 0, a NaN result gives
0, and any other result (finite or infinite) is returned. -/
def evalSafe (safe : String) : JSNum :=
  if trimEmpty safe then JSNum.num 0
  else
    match jsEval safe.data with
    | none => JSNum.num 0
    | some r => if r.isNaN then JSNum.num 0 else r

/-- The evaluateExpression method of the cost engine: substitute context
variables, zero the unreplaced ones, sanitize, then evaluate, with every
failure mode collapsing to 0 and NaN filtered (but not infinities). -/
def evaluateExpression (expression : String) (ctx : Ctx) : JSNum :=
  evalSafe (sanitize (substPipeline expression ctx))

/-- Rate of a tier: a numeric constant, or an expression string resolved
through evaluateExpression. -/
inductive RateSpec where
  | num (q : ℚ)
  | expr (s : String)
deriving DecidableEq, Repr

/-- One tier of a tiered formula: an optional volume limit (none models a
null or missing limit) and a rate. -/
structure Tier where
  limit : Option ℚ
  rate : RateSpec
deriving DecidableEq, Repr

/-- One entry of a multiplier formula: the context variable holding the
stacking level and the factor applied per level above one. -/
structure Mult where
  «variable» : String
  factor : ℚ
deriving DecidableEq, Repr

/-- Comparison operator of a condition; unknown models any operator
string outside the six recognized ones (the default switch case). -/
inductive CmpOp where
  | gt
  | ge
  | lt
  | le
  | eq
  | ne
  | unknown
deriving DecidableEq, Repr

/-- The if clause of a condition: variable, operator, literal value. -/
structure CondTest where
  «variable» : String
  op : CmpOp
  value : ℚ
deriving DecidableEq, Repr

mutual

/-- Formula definition, the four shapes dispatched by evaluateFormula:
numeric constant, string (sigil reference or expression), and the three
tagged object shapes plus the untagged sum-of-members object. -/
inductive Formula where
  | num : ℚ → Formula
  | str : String → Formula
  | tiered : String → List Tier → Formula
  | multiplier : String → List Mult → Formula
  | conditional : List Cond → Option ThenClause → Formula
  | sum : List Formula → Formula

/-- A then or else clause: the source dispatches on typeof, sending a
string to evaluateExpression and anything else to evaluateFormula. -/
inductive ThenClause where
  | expr : String → ThenClause
  | formula : Formula → ThenClause

/-- One condition of a conditional formula. -/
inductive Cond where
  | mk : CondTest → ThenClause → Cond

end

/-- The if clause of a condition. -/
def Cond.test : Cond → CondTest
  | .mk t _ => t

/-- The then clause of a condition. -/
def Cond.thenClause : Cond → ThenClause
  | .mk _ th => th

/-- Context read with the or-zero default: an absent variable reads as 0
(and a stored 0 reads as 0 through the falsy branch as well). -/
def ctxGetD0 (ctx : Ctx) (k : String) : ℚ := (alookup ctx k).getD 0

/-- Context read with the or-one default of the multiplier loop: an
absent variable reads as 1, and a stored 0 is falsy and also reads as 1. -/
def ctxGetOr1 (ctx : Ctx) (k : String) : ℚ :=
  match alookup ctx k with
  | none => 1
  | some q => if q = 0 then 1 else q

/-- The Math.pow call of the multiplier formula on the rational fragment:
exact for nonnegative integer exponents, the only exponents integer
stacking levels produce. A non-integer or negative exponent yields an
irrational or reciprocal value outside the scope of the verified claims
and is mapped to 0 here; the claim theorems restrict to integer levels. -/
def mathPow (b e : ℚ) : ℚ :=
  if e.den = 1 ∧ 0 ≤ e.num then b ^ e.num.toNat else 0

/-- Volume consumed by one tier: the falsy check tier.limit or
remainingVolume makes a null, missing or zero limit absorb the whole
remaining volume. -/
def tierVol (t : Tier) (remaining : ℚ) : ℚ :=
  match t.limit with
  | none => remaining
  | some l => if l = 0 then remaining else min remaining l

/-- Rate of a tier resolved against a context: a string rate goes through
evaluateExpression, a numeric rate is used as is. -/
def rateQ (t : Tier) (ctx : Ctx) : JSNum :=
  match t.rate with
  | RateSpec.num q => JSNum.num q
  | RateSpec.expr s => evaluateExpression s ctx

/-- The tier loop of evaluateTieredFormula: walk tiers in order, break
once remaining volume is nonpositive, otherwise consume tierVol units at
the resolved rate and accumulate. -/
def tieredGo (ctx : Ctx) : List Tier → ℚ → JSNum → JSNum
  | [], _, cost => cost
  | t :: ts, remaining, cost =>
      if remaining ≤ 0 then cost
      else
        tieredGo ctx ts (remaining - tierVol t remaining)
          (jsAdd cost (jsMul (JSNum.num (tierVol t remaining)) (rateQ t ctx)))

/-- The evaluateTieredFormula method: volume read with the or-zero
default, then the tier loop starting from cost 0. -/
def evaluateTieredFormula (volumeVar : String) (tiers : List Tier) (ctx : Ctx) : JSNum :=
  tieredGo ctx tiers (ctxGetD0 ctx volumeVar) (JSNum.num 0)

/-- The evaluateMultiplierFormula method: evaluate the base expression,
fold the multiplier entries (a level above one multiplies the running
multiplier by factor to the power level minus one), multiply, and clamp
a NaN product to 0. -/
def evaluateMultiplierFormula (base : String) (ms : List Mult) (ctx : Ctx) : JSNum :=
  let baseValue := evaluateExpression base ctx
  let multiplier := ms.foldl
    (fun acc m =>
      let factor := ctxGetOr1 ctx m.«variable»
      if 1 < factor then acc * mathPow m.factor (factor - 1) else acc) 1
  let result := jsMul baseValue (JSNum.num multiplier)
  if result.isNaN then JSNum.num 0 else result

/-- The evaluateCondition method: variable read with the or-zero default,
compared against the literal value; an unrecognized operator is false. -/
def evaluateCondition (t : CondTest) (ctx : Ctx) : Bool :=
  match t.op with
  | CmpOp.gt => decide (t.value < ctxGetD0 ctx t.«variable»)
  | CmpOp.ge => decide (t.value ≤ ctxGetD0 ctx t.«variable»)
  | CmpOp.lt => decide (ctxGetD0 ctx t.«variable» < t.value)
  | CmpOp.le => decide (ctxGetD0 ctx t.«variable» ≤ t.value)
  | CmpOp.eq => decide (ctxGetD0 ctx t.«variable» = t.value)
  | CmpOp.ne => decide (ctxGetD0 ctx t.«variable» ≠ t.value)
  | CmpOp.unknown => false

mutual

/-- The evaluateFormula method: numeric constant as is, sigil string as a
context read with or-zero default, other strings through
evaluateExpression, objects dispatched by type tag, untagged objects as
the sum of their members. -/
def evaluateFormula : Formula → Ctx → JSNum
  | Formula.num q, _ => JSNum.num q
  | Formula.str s, ctx =>
      if s.startsWith ("$") then JSNum.num (ctxGetD0 ctx (s.drop 1))
      else evaluateExpression s ctx
  | Formula.tiered vv ts, ctx => evaluateTieredFormula vv ts ctx
  | Formula.multiplier b ms, ctx => evaluateMultiplierFormula b ms ctx
  | Formula.conditional cs els, ctx => evaluateConditionalFormula cs els ctx
  | Formula.sum fs, ctx => evalSumList fs (JSNum.num 0) ctx
termination_by f _ => sizeOf f
decreasing_by
  all_goals simp_wf

/-- The conditions loop of evaluateConditionalFormula: first condition
that holds selects its then clause; when none holds the else clause
(defaulting to 0 when absent or falsy) is evaluated the same way. -/
def evaluateConditionalFormula : List Cond → Option ThenClause → Ctx → JSNum
  | [], els, ctx =>
      match els with
      | none => JSNum.num 0
      | some th => evalThenClause th ctx
  | Cond.mk t th :: cs, els, ctx =>
      if evaluateCondition t ctx then evalThenClause th ctx
      else evaluateConditionalFormula cs els ctx
termination_by cs els _ => sizeOf cs + sizeOf els
decreasing_by
  all_goals simp_wf
  all_goals omega

/-- The typeof dispatch shared by then and else clauses: a string goes to
evaluateExpression, anything else recurses into evaluateFormula. -/
def evalThenClause : ThenClause → Ctx → JSNum
  | ThenClause.expr s, ctx => evaluateExpression s ctx
  | ThenClause.formula f, ctx => evaluateFormula f ctx
termination_by th _ => sizeOf th
decreasing_by
  all_goals simp_wf

/-- The default-sum loop over the members of an untagged formula object. -/
def evalSumList : List Formula → JSNum → Ctx → JSNum
  | [], acc, _ => acc
  | f :: fs, acc, ctx => evalSumList fs (jsAdd acc (evaluateFormula f ctx)) ctx
termination_by fs _ _ => sizeOf fs
decreasing_by
  all_goals simp_wf
  all_goals omega

end

/-- Does this extracted variable name look like a cost component: does it
contain one of the four cost-related substrings? -/
def containsCostToken (name : List Char) : Bool :=
  containsSub ("_per_").data name || containsSub ("_cost").data name ||
  containsSub ("_price").data name || containsSub ("_base").data name

/-- Identifier start character of the extraction regex. -/
def isIdentStart (c : Char) : Bool := c.isAlpha || c = '_'

/-- Identifier continuation character of the extraction regex. -/
def isIdentChar (c : Char) : Bool := c.isAlpha || c.isDigit || c = '_'

/-- The extractVars closure of getRequiredVariables: all matches of the
sigil-identifier pattern in a string, kept when the identifier contains a
cost-related substring. -/
def extractVarsGo : ℕ → List Char → List (List Char)
  | 0, _ => []
  | _ + 1, [] => []
  | fuel + 1, '$' :: rest =>
      (match rest with
       | [] => []
       | c :: cs =>
           if isIdentStart c then
             (if containsCostToken (c :: cs.takeWhile isIdentChar) then
                [c :: cs.takeWhile isIdentChar] else []) ++
             extractVarsGo fuel (cs.dropWhile isIdentChar)
           else extractVarsGo fuel (c :: cs))
  | fuel + 1, _ :: rest => extractVarsGo fuel rest

/-- String wrapper for the extraction scan (the fuel of one beyond the
length always suffices since every step consumes at least the sigil). -/
def extractVars (s : String) : List String :=
  (extractVarsGo (s.data.length + 1) s.data).map (fun l => ⟨l⟩)

/-- Strings reachable by the traverse closure inside a list of tiers
(the numeric limit members are skipped, string rates are scanned). -/
def collectTiers : List Tier → List String
  | [] => []
  | t :: ts =>
      (match t.rate with
       | RateSpec.num _ => []
       | RateSpec.expr s => extractVars s) ++ collectTiers ts

/-- Strings reachable by the traverse closure inside multiplier entries:
the variable member is itself a string and is scanned (it carries no
sigil in practice, so it contributes nothing). -/
def collectMults : List Mult → List String
  | [] => []
  | m :: ms => extractVars m.«variable» ++ collectMults ms

mutual

/-- The traverse closure of getRequiredVariables over a formula object:
every string member anywhere in the structure is scanned with
extractVars; numbers are skipped. The literal type-tag strings contain
no sigil and contribute nothing, so they are omitted; the Set used by the
source only deduplicates, which does not affect the membership-based
support check, so duplicates are kept here. -/
def collectFormula : Formula → List String
  | Formula.num _ => []
  | Formula.str s => extractVars s
  | Formula.tiered vv ts => extractVars vv ++ collectTiers ts
  | Formula.multiplier b ms => extractVars b ++ collectMults ms
  | Formula.conditional cs els =>
      collectConds cs ++
      (match els with
       | none => []
       | some th => collectThen th)
  | Formula.sum fs => collectFormulaList fs
termination_by f => sizeOf f
decreasing_by
  all_goals simp_wf
  all_goals omega

/-- Traverse closure over a list of member formulas. -/
def collectFormulaList : List Formula → List String
  | [] => []
  | f :: fs => collectFormula f ++ collectFormulaList fs
termination_by fs => sizeOf fs

/-- Traverse closure over conditions: the if object contributes its
variable string (the operator string and numeric value contribute
nothing), then the then clause. -/
def collectConds : List Cond → List String
  | [] => []
  | Cond.mk t th :: cs => extractVars t.«variable» ++ collectThen th ++ collectConds cs
termination_by cs => sizeOf cs

/-- Traverse closure over a then or else clause. -/
def collectThen : ThenClause → List String
  | ThenClause.expr s => extractVars s
  | ThenClause.formula f => collectFormula f
termination_by th => sizeOf th

end

/-- The getRequiredVariables method: traverse the formula of the service
(an absent formula is the undefined value, which the traverse skips) and
collect every cost-looking variable reference. -/
def getRequiredVariables (formulas : List (String × Formula)) (serviceType : String) : List String :=
  match alookup formulas serviceType with
  | none => []
  | some f => collectFormula f

/-- The checkServiceSupport method: the system supports the service when
every required variable is a key present in the system cost components
(presence only; values are never inspected). -/
def checkServiceSupport (formulas : List (String × Formula)) (serviceType : String)
    (systemCosts : Ctx) : Bool :=
  (getRequiredVariables formulas serviceType).all (fun v => (alookup systemCosts v).isSome)

/-- Object-spread merge as in calculateServiceCost: keys of the first
object in their order with values overridden by the second, then the
new keys of the second object. -/
def mergeCtx (a b : Ctx) : Ctx :=
  a.map (fun p => (p.1, (alookup b p.1).getD p.2)) ++
  b.filter (fun p => (alookup a p.1).isNone)

/-- The calculateServiceCost method: a missing formula throws (modelled as
an error value); otherwise the formula is evaluated in the merged
context of system costs, engine variables and call parameters. -/
def calculateServiceCost (formulas : List (String × Formula)) (systemCosts engineVars params : Ctx)
    (serviceType : String) : Except String JSNum :=
  match alookup formulas serviceType with
  | none => Except.error ("No formula found for service type: " ++ serviceType)
  | some f => Except.ok (evaluateFormula f (mergeCtx (mergeCtx systemCosts engineVars) params))

/-- Loop state of calculateTotalCost. -/
structure AggState where
  costs : List (String × Option JSNum)
  supported : List String
  unsupported : List String
  total : JSNum
deriving Repr

/-- One iteration of the service loop of calculateTotalCost: an
unsupported service is recorded as null and listed unsupported; a
successful evaluation is recorded, listed supported and added to the
total unless NaN; a caught evaluation error records a 0 cost and touches
nothing else. -/
def serviceStep (formulas : List (String × Formula)) (systemCosts engineVars : Ctx)
    (serviceParameters : List (String × Ctx)) (st : AggState) (serviceType : String) : AggState :=
  if checkServiceSupport formulas serviceType systemCosts = false then
    { st with costs := st.costs ++ [(serviceType, none)],
              unsupported := st.unsupported ++ [serviceType] }
  else
    match calculateServiceCost formulas systemCosts engineVars
        ((alookup serviceParameters serviceType).getD []) serviceType with
    | Except.error _ => { st with costs := st.costs ++ [(serviceType, some (JSNum.num 0))] }
    | Except.ok c =>
        { st with costs := st.costs ++ [(serviceType, some c)],
                  supported := st.supported ++ [serviceType],
                  total := if c.isNaN then st.total else jsAdd st.total c }

/-- JavaScript greater-than on JSNum as the descending sort comparator of
the breakdown uses it (a comparison involving NaN is false). -/
def jsGtB : JSNum → JSNum → Bool
  | JSNum.num a, JSNum.num b => decide (b < a)
  | JSNum.posInf, JSNum.num _ => true
  | JSNum.posInf, JSNum.negInf => true
  | JSNum.num _, JSNum.negInf => true
  | _, _ => false

/-- One entry of a cost breakdown. -/
structure BreakdownEntry where
  service : String
  cost : JSNum
  percentage : JSNum
deriving DecidableEq, Repr

/-- Stable insertion into a descending-by-cost list: a new entry goes
after entries of equal cost, matching the stable sort of the runtime. -/
def insertByCostDesc (x : BreakdownEntry) : List BreakdownEntry → List BreakdownEntry
  | [] => [x]
  | y :: ys => if jsGtB x.cost y.cost then x :: y :: ys else y :: insertByCostDesc x ys

/-- Stable descending-by-cost sort of breakdown entries. -/
def sortByCostDesc (l : List BreakdownEntry) : List BreakdownEntry :=
  l.foldl (fun acc x => insertByCostDesc x acc) []

/-- The generateCostBreakdown method of the multi-system engine: null
(unsupported) services are skipped, percentages are relative to the sum
of the listed costs when that sum is positive and 0 otherwise, and the
result is sorted by descending cost. -/
def generateCostBreakdown (costs : List (String × Option JSNum)) : List BreakdownEntry :=
  let entries := costs.filterMap
    (fun p => match p.2 with
      | none => none
      | some c => some (BreakdownEntry.mk p.1 c (JSNum.num 0)))
  let total := entries.foldl (fun acc e => jsAdd acc e.cost) (JSNum.num 0)
  sortByCostDesc (entries.map
    (fun e => BreakdownEntry.mk e.service e.cost
      (if jsGtB total (JSNum.num 0) then jsMul (jsDiv e.cost total) (JSNum.num 100)
       else JSNum.num 0)))

/-- Result record of calculateTotalCost. -/
structure TotalCostResult where
  services : List (String × Option JSNum)
  total : JSNum
  breakdown : List BreakdownEntry
  supportedServices : List String
  unsupportedServices : List String
deriving Repr

/-- The calculateTotalCost method of the multi-system engine: iterate
every configured service, dispatching each through serviceStep, then
assemble the result record. -/
def calculateTotalCost (formulas : List (String × Formula)) (systemCosts engineVars : Ctx)
    (serviceParameters : List (String × Ctx)) : TotalCostResult :=
  let st := (formulas.map Prod.fst).foldl
    (serviceStep formulas systemCosts engineVars serviceParameters)
    (AggState.mk [] [] [] (JSNum.num 0))
  TotalCostResult.mk st.costs st.total (generateCostBreakdown st.costs)
    st.supported st.unsupported

/-- Per-system result consumed by combineSystemResults: the fields of a
calculateTotalCost result that the combination step reads. -/
structure SystemResult where
  total : JSNum
  services : List (String × Option JSNum)
  supportedServices : List String
  unsupportedServices : List String
deriving Repr

/-- Insertion into a JavaScript Set modelled on lists: append when the
element is not already present. -/
def setAdd (l : List String) (x : String) : List String :=
  if x ∈ l then l else l ++ [x]

/-- The or-zero read of an accumulated combined cost: NaN and 0 are falsy
and read as 0; every other value reads as itself. -/
def jsOr0 (v : JSNum) : JSNum :=
  if v.isNaN then JSNum.num 0 else v

/-- One assignment combinedServices of service = previous-or-zero plus
cost: an existing key is updated in place, a new key is appended in
object insertion order. -/
def assocAdd (m : List (String × JSNum)) (k : String) (c : JSNum) : List (String × JSNum) :=
  match alookup m k with
  | some _ => m.map (fun p => if p.1 = k then (p.1, jsAdd (jsOr0 p.2) c) else p)
  | none => m ++ [(k, jsAdd (JSNum.num 0) c)]

/-- The inner services loop of combineSystemResults for one system:
non-null non-NaN costs are accumulated into the combined-services map. -/
def addServices (m : List (String × JSNum)) (svcs : List (String × Option JSNum)) :
    List (String × JSNum) :=
  svcs.foldl
    (fun acc p =>
      match p.2 with
      | some c => if c.isNaN then acc else assocAdd acc p.1 c
      | none => acc) m

/-- Combined result record of combineSystemResults. -/
structure CombinedResult where
  services : List (String × JSNum)
  total : JSNum
  breakdown : List BreakdownEntry
  supportedServices : List String
  unsupportedServices : List String
  systemCount : ℕ
deriving Repr

/-- The combineSystemResults function of the application controller: sum
per-system totals, union supported and unsupported service sets, sum
each service over the systems where it evaluated non-null and non-NaN,
build a positive-cost descending breakdown against the combined total,
and report as unsupported only the services no system supported. -/
def combineSystemResults (systemResults : List SystemResult) : CombinedResult :=
  let combinedTotal := systemResults.foldl (fun acc r => jsAdd acc r.total) (JSNum.num 0)
  let allSupported := systemResults.foldl
    (fun acc r => r.supportedServices.foldl setAdd acc) []
  let allUnsupported := systemResults.foldl
    (fun acc r => r.unsupportedServices.foldl setAdd acc) []
  let combinedServices := systemResults.foldl (fun acc r => addServices acc r.services) []
  let breakdown := sortByCostDesc
    ((combinedServices.filter (fun p => jsGtB p.2 (JSNum.num 0))).map
      (fun p => BreakdownEntry.mk p.1 p.2 (jsMul (jsDiv p.2 combinedTotal) (JSNum.num 100))))
  CombinedResult.mk combinedServices combinedTotal breakdown allSupported
    (allUnsupported.filter (fun s => decide (s ∉ allSupported)))
    systemResults.length

/-- Boolean scan deciding whether the substitution regex matches anywhere
in the string: some suffix starts with the sigil, the key, and a word
boundary. -/
def hasMatch (key : List Char) : List Char → Bool
  | [] => false
  | c :: rest =>
      (c = '$' && startsWithL key rest && boundaryOkB (rest.drop key.length)) ||
      hasMatch key rest

/-- Pure rational shadow of the tier loop, used by the proofs once every
rate is known to evaluate to a finite number: same control flow as
tieredGo with the cost carried as a rational. -/
def tieredCostQ (rq : Tier → ℚ) : List Tier → ℚ → ℚ → ℚ
  | [], _, c => c
  | t :: ts, r, c =>
      if r ≤ 0 then c
      else tieredCostQ rq ts (r - tierVol t r) (c + tierVol t r * rq t)

/-- Finite part of a JSNum, used to state sums once finiteness is known. -/
def toQ : JSNum → ℚ
  | JSNum.num q => q
  | _ => 0

/-- The contributions of a service across system results: its cost in
every system where it evaluated (present, non-null and non-NaN). -/
def contribs (rs : List SystemResult) (svc : String) : List JSNum :=
  rs.filterMap
    (fun r =>
      match alookup r.services svc with
      | some (some c) => if c.isNaN then none else some c
      | _ => none)

instance : DecidableEq (Except String JSNum) := fun a b =>
  match a, b with
  | Except.error x, Except.error y =>
      if h : x = y then Decidable.isTrue (by rw [h]) else Decidable.isFalse (by simp [h])
  | Except.ok x, Except.ok y =>
      if h : x = y then Decidable.isTrue (by rw [h]) else Decidable.isFalse (by simp [h])
  | Except.error _, Except.ok _ => Decidable.isFalse (by simp)
  | Except.ok _, Except.error _ => Decidable.isFalse (by simp)

lemma replaceVarGo_of_hasMatch_false {key val : List Char} (fuel : ℕ) {s : List Char}
    (h : hasMatch key s = false) : replaceVarGo key val fuel s = s := by
  induction fuel generalizing s with
  | zero => rfl
  | succ fuel ih =>
    match s with
    | [] => rfl
    | c :: rest =>
      simp only [hasMatch, Bool.or_eq_false_iff, Bool.and_eq_false_iff] at h
      rw [replaceVarGo, if_neg, ih h.2]
      rintro ⟨h1, h2, h3⟩
      rcases h.1 with h' | h'
      · rcases h' with h' | h'
        · simp [h1] at h'
        · simp [h2] at h'
      · simp [h3] at h'

lemma replaceVarL_of_hasMatch_false {key val s : List Char}
    (h : hasMatch key s = false) : replaceVarL key val s = s :=
  replaceVarGo_of_hasMatch_false _ h

lemma hasMatch_of_no_dollar {key s : List Char} (h : '$' ∉ s) :
    hasMatch key s = false := by
  induction s with
  | nil => rfl
  | cons c rest ih =>
    have hc : c ≠ '$' := fun e => h (e ▸ List.mem_cons_self c rest)
    have hr : '$' ∉ rest := fun m => h (List.mem_cons_of_mem _ m)
    simp [hasMatch, ih hr, hc]

lemma replaceVarL_no_dollar {key val s : List Char} (h : '$' ∉ s) :
    replaceVarL key val s = s :=
  replaceVarL_of_hasMatch_false (hasMatch_of_no_dollar h)

lemma findUnreplacedGo_no_dollar (fuel : ℕ) {s : List Char} (h : '$' ∉ s) :
    findUnreplacedGo fuel s = [] := by
  induction fuel generalizing s with
  | zero => rfl
  | succ fuel ih =>
    match s with
    | [] => rfl
    | c :: rest =>
      have hc : c ≠ '$' := fun e => h (e ▸ List.mem_cons_self c rest)
      have hr : '$' ∉ rest := fun m => h (List.mem_cons_of_mem _ m)
      rw [findUnreplacedGo.eq_4 fuel c rest (fun e => absurd e hc), ih hr]

lemma findUnreplacedL_no_dollar {s : List Char} (h : '$' ∉ s) :
    findUnreplacedL s = [] :=
  findUnreplacedGo_no_dollar _ h

lemma substPass1_no_dollar {e : String} (ctx : Ctx) (h : '$' ∉ e.data) :
    substPass1 e ctx = e := by
  induction ctx generalizing e with
  | nil => rfl
  | cons p ps ih =>
    show substPass1 (replaceVar e p.1 (numToString p.2)) ps = e
    have he : replaceVar e p.1 (numToString p.2) = e := by
      show (⟨replaceVarL p.1.data (numToString p.2).data e.data⟩ : String) = e
      rw [replaceVarL_no_dollar h]
    rw [he, ih h]

lemma substPass2_no_dollar {s : String} (h : '$' ∉ s.data) :
    substPass2 s = s := by
  show (findUnreplacedL s.data).foldl _ s = s
  rw [findUnreplacedL_no_dollar h]
  rfl

lemma substPipeline_no_dollar {e : String} (ctx : Ctx) (h : '$' ∉ e.data) :
    substPipeline e ctx = e := by
  rw [substPipeline, substPass1_no_dollar ctx h, substPass2_no_dollar h]

lemma digitChar_ne_dollar {d : ℕ} (h : d < 10) : digitChar d ≠ '$' := by
  interval_cases d <;> decide

lemma natToCharsGo_no_dollar (fuel n : ℕ) : '$' ∉ natToCharsGo fuel n := by
  induction fuel generalizing n with
  | zero => simp [natToCharsGo]
  | succ fuel ih =>
    rw [natToCharsGo]
    split
    · intro hm
      rcases List.mem_singleton.1 hm with h
      exact digitChar_ne_dollar (by omega) h.symm
    · intro hm
      rcases List.mem_append.1 hm with h | h
      · exact ih _ h
      · rcases List.mem_singleton.1 h with h
        exact digitChar_ne_dollar (Nat.mod_lt _ (by omega)) h.symm

lemma fracChars_no_dollar (rem den fuel : ℕ) (hden : 0 < den) (hrem : rem < den) :
    '$' ∉ fracChars rem den fuel := by
  induction fuel generalizing rem with
  | zero => simp [fracChars]
  | succ fuel ih =>
    rw [fracChars]
    split
    · simp
    · intro hm
      rcases List.mem_cons.1 hm with h | h
      · refine digitChar_ne_dollar ?_ h.symm
        have : rem * 10 < 10 * den := by omega
        exact (Nat.div_lt_iff_lt_mul hden).2 this
      · exact ih _ (Nat.mod_lt _ hden) h

lemma numToString_no_dollar (q : ℚ) : '$' ∉ (numToString q).data := by
  rw [numToString]
  intro hm
  rw [String.data_append, String.data_append] at hm
  rcases List.mem_append.1 hm with h | h
  · rcases List.mem_append.1 h with h | h
    · split at h
      · simp at h
      · simp at h
    · exact natToCharsGo_no_dollar _ _ h
  · split at h
    · simp at h
    · rw [String.data_append] at h
      rcases List.mem_append.1 h with h | h
      · simp at h
      · exact fracChars_no_dollar _ _ _ q.pos (Nat.mod_lt _ q.pos) h

lemma jsAdd_zero_left (x : JSNum) : jsAdd (JSNum.num 0) x = x := by
  cases x <;> simp [jsAdd]

lemma tierVol_le (t : Tier) (r : ℚ) : tierVol t r ≤ r := by
  rcases hml : t.limit with _ | l
  · simp [tierVol, hml]
  · by_cases h : l = 0
    · simp [tierVol, hml, h]
    · simp only [tierVol, hml, if_neg h]
      exact min_le_left r l

lemma tierVol_nonneg {t : Tier} {r : ℚ}
    (hl : ∀ l, t.limit = some l → 0 ≤ l) (hr : 0 < r) : 0 ≤ tierVol t r := by
  rcases hml : t.limit with _ | l
  · simp only [tierVol, hml]
    exact le_of_lt hr
  · by_cases h : l = 0
    · simp only [tierVol, hml, if_pos h]
      exact le_of_lt hr
    · simp only [tierVol, hml, if_neg h]
      exact le_min (le_of_lt hr) (hl l hml)

lemma tierVol_mono {t : Tier} {r₁ r₂ : ℚ} (h : r₁ ≤ r₂) : tierVol t r₁ ≤ tierVol t r₂ := by
  rcases hml : t.limit with _ | l
  · simp only [tierVol, hml]
    exact h
  · by_cases hl : l = 0
    · simp only [tierVol, hml, if_pos hl]
      exact h
    · simp only [tierVol, hml, if_neg hl]
      exact min_le_min h (le_refl l)

lemma sub_tierVol_mono {t : Tier} {r₁ r₂ : ℚ} (h : r₁ ≤ r₂) :
    r₁ - tierVol t r₁ ≤ r₂ - tierVol t r₂ := by
  rcases hml : t.limit with _ | l
  · simp [tierVol, hml]
  · by_cases hl : l = 0
    · simp [tierVol, hml, if_pos hl]
    · simp only [tierVol, hml, if_neg hl]
      rcases le_total r₁ l with h1 | h1
      · rw [min_eq_left h1]
        rcases le_total r₂ l with h2 | h2
        · rw [min_eq_left h2]
          simp
        · rw [min_eq_right h2]
          simp only [sub_self]
          linarith
      · rw [min_eq_right h1, min_eq_right (le_trans h1 h)]
        linarith

lemma tieredGo_eq_costQ {ctx : Ctx} {ts : List Tier} (rq : Tier → ℚ)
    (hr : ∀ t ∈ ts, rateQ t ctx = JSNum.num (rq t)) (r c : ℚ) :
    tieredGo ctx ts r (JSNum.num c) = JSNum.num (tieredCostQ rq ts r c) := by
  induction ts generalizing r c with
  | nil => rfl
  | cons t ts ih =>
    rw [tieredGo, tieredCostQ]
    by_cases h : r ≤ 0
    · rw [if_pos h, if_pos h]
    · rw [if_neg h, if_neg h, hr t (List.mem_cons_self t ts)]
      exact ih (fun t' ht' => hr t' (List.mem_cons_of_mem _ ht')) _ _

lemma tieredCostQ_ge (rq : Tier → ℚ) (ts : List Tier)
    (hrq : ∀ t ∈ ts, 0 ≤ rq t)
    (hl : ∀ t ∈ ts, ∀ l, t.limit = some l → 0 ≤ l) (r c : ℚ) :
    c ≤ tieredCostQ rq ts r c := by
  induction ts generalizing r c with
  | nil => exact le_refl c
  | cons t ts ih =>
    rw [tieredCostQ]
    by_cases h : r ≤ 0
    · rw [if_pos h]
    · rw [if_neg h]
      refine le_trans ?_ (ih (fun t' ht' => hrq t' (List.mem_cons_of_mem _ ht'))
        (fun t' ht' => hl t' (List.mem_cons_of_mem _ ht')) _ _)
      have hv : 0 ≤ tierVol t r :=
        tierVol_nonneg (hl t (List.mem_cons_self t ts)) (lt_of_not_le h)
      nlinarith [hrq t (List.mem_cons_self t ts)]

lemma tieredCostQ_mono (rq : Tier → ℚ) (ts : List Tier)
    (hrq : ∀ t ∈ ts, 0 ≤ rq t)
    (hl : ∀ t ∈ ts, ∀ l, t.limit = some l → 0 ≤ l)
    {r₁ r₂ c₁ c₂ : ℚ} (hr : r₁ ≤ r₂) (hc : c₁ ≤ c₂) :
    tieredCostQ rq ts r₁ c₁ ≤ tieredCostQ rq ts r₂ c₂ := by
  induction ts generalizing r₁ r₂ c₁ c₂ with
  | nil => exact hc
  | cons t ts ih =>
    rw [tieredCostQ, tieredCostQ]
    by_cases h2 : r₂ ≤ 0
    · rw [if_pos h2, if_pos (le_trans hr h2)]
      exact hc
    · rw [if_neg h2]
      by_cases h1 : r₁ ≤ 0
      · rw [if_pos h1]
        refine le_trans ?_ (tieredCostQ_ge rq ts
          (fun t' ht' => hrq t' (List.mem_cons_of_mem _ ht'))
          (fun t' ht' => hl t' (List.mem_cons_of_mem _ ht')) _ _)
        have hv : 0 ≤ tierVol t r₂ :=
          tierVol_nonneg (hl t (List.mem_cons_self t ts)) (lt_of_not_le h2)
        nlinarith [hrq t (List.mem_cons_self t ts)]
      · rw [if_neg h1]
        refine ih (fun t' ht' => hrq t' (List.mem_cons_of_mem _ ht'))
          (fun t' ht' => hl t' (List.mem_cons_of_mem _ ht'))
          (sub_tierVol_mono hr) ?_
        have hm := mul_le_mul_of_nonneg_right (tierVol_mono (t := t) hr)
          (hrq t (List.mem_cons_self t ts))
        linarith

lemma tieredGo_nonpos {ctx : Ctx} {ts : List Tier} {r : ℚ} (h : r ≤ 0) (cost : JSNum) :
    tieredGo ctx ts r cost = cost := by
  cases ts with
  | nil => rfl
  | cons t ts => rw [tieredGo, if_pos h]

lemma tieredGo_boundary (ctx : Ctx) (lrs : List (ℚ × ℚ)) (back : List Tier)
    (hpos : ∀ p ∈ lrs, 0 < p.1) (c : ℚ) :
    tieredGo ctx (lrs.map (fun p => Tier.mk (some p.1) (RateSpec.num p.2)) ++ back)
      ((lrs.map Prod.fst).sum) (JSNum.num c)
      = JSNum.num (c + (lrs.map (fun p => p.1 * p.2)).sum) := by
  induction lrs generalizing c with
  | nil =>
    simp only [List.map_nil, List.sum_nil, List.nil_append, add_zero]
    exact tieredGo_nonpos (le_refl 0) _
  | cons p lrs ih =>
    have hS : 0 ≤ (lrs.map Prod.fst).sum := by
      refine List.sum_nonneg ?_
      intro x hx
      rcases List.mem_map.1 hx with ⟨q, hq, rfl⟩
      exact le_of_lt (hpos q (List.mem_cons_of_mem _ hq))
    have hp : 0 < p.1 := hpos p (List.mem_cons_self p lrs)
    simp only [List.map_cons, List.sum_cons, List.cons_append]
    rw [tieredGo, if_neg (by push_neg; linarith)]
    have hvol : tierVol (Tier.mk (some p.1) (RateSpec.num p.2)) (p.1 + (lrs.map Prod.fst).sum)
        = p.1 := by
      simp only [tierVol]
      rw [if_neg (ne_of_gt hp), min_eq_right (by linarith)]
    rw [hvol]
    have hrate : rateQ (Tier.mk (some p.1) (RateSpec.num p.2)) ctx = JSNum.num p.2 := rfl
    rw [hrate]
    have hsub : p.1 + (lrs.map Prod.fst).sum - p.1 = (lrs.map Prod.fst).sum := by ring
    have hadd : jsAdd (JSNum.num c) (jsMul (JSNum.num p.1) (JSNum.num p.2))
        = JSNum.num (c + p.1 * p.2) := rfl
    rw [hsub, hadd, ih (fun q hq => hpos q (List.mem_cons_of_mem _ hq))]
    rw [add_assoc]

lemma multiplier_foldl_eq (ctx : Ctx) (ms : List Mult) (a : ℚ)
    (h : ∀ m ∈ ms, 1 < ctxGetOr1 ctx m.«variable» →
      (ctxGetOr1 ctx m.«variable» - 1).den = 1) :
    ms.foldl
      (fun acc m =>
        let factor := ctxGetOr1 ctx m.«variable»
        if 1 < factor then acc * mathPow m.factor (factor - 1) else acc) a
    = a * (ms.map
        (fun m =>
          if 1 < ctxGetOr1 ctx m.«variable» then
            m.factor ^ (ctxGetOr1 ctx m.«variable» - 1).num.toNat
          else 1)).prod := by
  induction ms generalizing a with
  | nil => simp
  | cons m ms ih =>
    rw [List.foldl_cons, List.map_cons, List.prod_cons]
    by_cases hm : 1 < ctxGetOr1 ctx m.«variable»
    · have hden : (ctxGetOr1 ctx m.«variable» - 1).den = 1 :=
        h m (List.mem_cons_self m ms) hm
      have hnum : 0 ≤ (ctxGetOr1 ctx m.«variable» - 1).num := by
        have : (0 : ℚ) < ctxGetOr1 ctx m.«variable» - 1 := by linarith
        exact le_of_lt (Rat.num_pos.2 this)
      have hpow : mathPow m.factor (ctxGetOr1 ctx m.«variable» - 1)
          = m.factor ^ (ctxGetOr1 ctx m.«variable» - 1).num.toNat := by
        rw [mathPow, if_pos ⟨hden, hnum⟩]
      simp only [hm, if_true, if_pos hm]
      rw [ih _ (fun m' hm' => h m' (List.mem_cons_of_mem _ hm')), hpow]
      ring
    · simp only [hm, if_false, if_neg hm]
      rw [ih _ (fun m' hm' => h m' (List.mem_cons_of_mem _ hm'))]
      ring

lemma evaluateConditionalFormula_first_match (pre : List Cond) (c : Cond) (post : List Cond)
    (els : Option ThenClause) (ctx : Ctx)
    (hpre : ∀ c' ∈ pre, evaluateCondition c'.test ctx = false)
    (hc : evaluateCondition c.test ctx = true) :
    evaluateConditionalFormula (pre ++ c :: post) els ctx = evalThenClause c.thenClause ctx := by
  induction pre with
  | nil =>
    rcases c with ⟨t, th⟩
    simp only [Cond.test] at hc
    rw [List.nil_append, evaluateConditionalFormula, if_pos hc]
    simp only [Cond.thenClause]
  | cons c' pre ih =>
    rcases c' with ⟨t', th'⟩
    rw [List.cons_append, evaluateConditionalFormula, if_neg]
    · exact ih (fun x hx => hpre x (List.mem_cons_of_mem _ hx))
    · have := hpre ⟨t', th'⟩ (List.mem_cons_self _ _)
      simp only [Cond.test] at this
      simp [this]

lemma evaluateConditionalFormula_no_match (conds : List Cond) (els : Option ThenClause)
    (ctx : Ctx) (h : ∀ c ∈ conds, evaluateCondition c.test ctx = false) :
    evaluateConditionalFormula conds els ctx
      = (match els with
         | none => JSNum.num 0
         | some th => evalThenClause th ctx) := by
  induction conds with
  | nil =>
    cases els with
    | none => rw [evaluateConditionalFormula.eq_1]
    | some th => rw [evaluateConditionalFormula.eq_2]
  | cons c conds ih =>
    rcases c with ⟨t, th⟩
    rw [evaluateConditionalFormula, if_neg]
    · exact ih (fun x hx => h x (List.mem_cons_of_mem _ hx))
    · have := h ⟨t, th⟩ (List.mem_cons_self _ _)
      simp only [Cond.test] at this
      simp [this]

lemma alookup_isSome_iff {α : Type} (l : List (String × α)) (k : String) :
    (alookup l k).isSome = true ↔ k ∈ l.map Prod.fst := by
  induction l with
  | nil => simp [alookup]
  | cons p ps ih =>
    rw [alookup]
    by_cases h : p.1 = k
    · simp [h]
    · rw [if_neg h]
      simp only [List.map_cons, List.mem_cons]
      rw [ih]
      constructor
      · exact fun hm => Or.inr hm
      · rintro (hm | hm)
        · exact absurd hm.symm h
        · exact hm

lemma serviceStep_costs_map_fst (f : List (String × Formula)) (sys vars : Ctx)
    (params : List (String × Ctx)) (st : AggState) (svc : String) :
    ((serviceStep f sys vars params st svc).costs).map Prod.fst
      = st.costs.map Prod.fst ++ [svc] := by
  rw [serviceStep]
  split
  · simp
  · split <;> simp

lemma foldl_serviceStep_costs_keys (f : List (String × Formula)) (sys vars : Ctx)
    (params : List (String × Ctx)) (keys : List String) (st : AggState) :
    (((keys.foldl (serviceStep f sys vars params) st)).costs).map Prod.fst
      = st.costs.map Prod.fst ++ keys := by
  induction keys generalizing st with
  | nil => simp
  | cons k ks ih =>
    rw [List.foldl_cons, ih, serviceStep_costs_map_fst]
    simp

lemma combineTotal_foldl (rs : List SystemResult) (t : SystemResult → ℚ)
    (h : ∀ r ∈ rs, r.total = JSNum.num (t r)) (a : ℚ) :
    rs.foldl (fun acc r => jsAdd acc r.total) (JSNum.num a)
      = JSNum.num (a + (rs.map t).sum) := by
  induction rs generalizing a with
  | nil => simp
  | cons r rs ih =>
    rw [List.foldl_cons, h r (List.mem_cons_self r rs)]
    have : jsAdd (JSNum.num a) (JSNum.num (t r)) = JSNum.num (a + t r) := rfl
    rw [this, ih (fun r' hr' => h r' (List.mem_cons_of_mem _ hr'))]
    rw [List.map_cons, List.sum_cons, add_assoc]

lemma alookup_append {α : Type} (a b : List (String × α)) (k : String) :
    alookup (a ++ b) k
      = (match alookup a k with
         | some v => some v
         | none => alookup b k) := by
  induction a with
  | nil => rw [List.nil_append]; rfl
  | cons p ps ih =>
    rw [List.cons_append, alookup, alookup]
    by_cases h : p.1 = k
    · rw [if_pos h, if_pos h]
    · rw [if_neg h, if_neg h, ih]

lemma alookup_map_update {α : Type} (g : α → α) {m : List (String × α)} {k : String} {v : α}
    (h : alookup m k = some v) :
    alookup (m.map (fun p => if p.1 = k then (p.1, g p.2) else p)) k = some (g v) := by
  induction m with
  | nil => simp [alookup] at h
  | cons p ps ih =>
    rw [alookup] at h
    rw [List.map_cons]
    by_cases hk : p.1 = k
    · rw [if_pos hk] at h
      rw [if_pos hk, alookup, if_pos hk]
      rw [Option.some_inj] at h
      rw [h]
    · rw [if_neg hk] at h
      rw [if_neg hk, alookup, if_neg hk]
      exact ih h

lemma alookup_map_update_ne {α : Type} (g : α → α) (m : List (String × α)) {k k' : String}
    (h : k' ≠ k) :
    alookup (m.map (fun p => if p.1 = k then (p.1, g p.2) else p)) k' = alookup m k' := by
  induction m with
  | nil => rfl
  | cons p ps ih =>
    rw [List.map_cons, alookup, alookup]
    by_cases hk : p.1 = k
    · rw [if_pos hk]
      have h1 : (p.1, g p.2).1 ≠ k' := by
        show p.1 ≠ k'
        rw [hk]
        exact fun e => h e.symm
      rw [if_neg h1, if_neg (by rw [hk]; exact fun e => h e.symm), ih]
    · rw [if_neg hk]
      by_cases hk' : p.1 = k'
      · rw [if_pos hk', if_pos hk']
      · rw [if_neg hk', if_neg hk', ih]

lemma alookup_assocAdd_same (m : List (String × JSNum)) (k : String) (c : JSNum) :
    alookup (assocAdd m k c) k
      = some (jsAdd (jsOr0 ((alookup m k).getD (JSNum.num 0))) c) := by
  rcases h : alookup m k with _ | v
  · simp only [assocAdd, h]
    rw [alookup_append, h]
    simp [alookup, jsOr0, JSNum.isNaN]
  · simp only [assocAdd, h]
    rw [alookup_map_update (fun x => jsAdd (jsOr0 x) c) h]
    rfl

lemma alookup_assocAdd_ne (m : List (String × JSNum)) {k k' : String} (c : JSNum)
    (h : k' ≠ k) : alookup (assocAdd m k c) k' = alookup m k' := by
  rcases hm : alookup m k with _ | v
  · simp only [assocAdd, hm]
    rw [alookup_append]
    rcases hm' : alookup m k' with _ | v'
    · show alookup [(k, jsAdd (JSNum.num 0) c)] k' = none
      rw [alookup, if_neg (fun e => h e.symm)]
      rfl
    · rfl
  · simp only [assocAdd, hm]
    exact alookup_map_update_ne (fun x => jsAdd (jsOr0 x) c) m h

lemma alookup_mem {α : Type} {l : List (String × α)} {k : String} {v : α}
    (h : alookup l k = some v) : (k, v) ∈ l := by
  induction l with
  | nil => simp [alookup] at h
  | cons p ps ih =>
    rw [alookup] at h
    by_cases hk : p.1 = k
    · rw [if_pos hk, Option.some_inj] at h
      have : p = (k, v) := by
        rcases p with ⟨a, b⟩
        simp only at hk h
        rw [hk, h]
      rw [← this]
      exact List.mem_cons_self p ps
    · rw [if_neg hk] at h
      exact List.mem_cons_of_mem _ (ih h)

lemma addServices_lookup_not_mem (m : List (String × JSNum))
    (svcs : List (String × Option JSNum)) {svc : String}
    (h : svc ∉ svcs.map Prod.fst) :
    alookup (addServices m svcs) svc = alookup m svc := by
  induction svcs generalizing m with
  | nil => rfl
  | cons p rest ih =>
    rw [List.map_cons, List.mem_cons] at h
    push_neg at h
    rw [addServices, List.foldl_cons]
    have step : alookup
        (match p.2 with
         | some c => if c.isNaN = true then m else assocAdd m p.1 c
         | none => m) svc = alookup m svc := by
      rcases p.2 with _ | c
      · rfl
      · dsimp only
        by_cases hnan : c.isNaN = true
        · rw [if_pos hnan]
        · rw [if_neg hnan]
          exact alookup_assocAdd_ne m c h.1
    rw [← addServices]
    rw [ih _ h.2]
    exact step

lemma addServices_lookup (m : List (String × JSNum)) (svcs : List (String × Option JSNum))
    (svc : String) (hnd : (svcs.map Prod.fst).Nodup) :
    alookup (addServices m svcs) svc
      = (match alookup svcs svc with
         | some (some c) =>
             if c.isNaN = true then alookup m svc
             else some (jsAdd (jsOr0 ((alookup m svc).getD (JSNum.num 0))) c)
         | _ => alookup m svc) := by
  induction svcs generalizing m with
  | nil => rfl
  | cons p rest ih =>
    rw [List.map_cons, List.nodup_cons] at hnd
    rw [addServices, List.foldl_cons, ← addServices]
    by_cases hk : p.1 = svc
    · rw [alookup, if_pos hk]
      have hnm : svc ∉ rest.map Prod.fst := hk ▸ hnd.1
      rcases hp2 : p.2 with _ | c
      · dsimp only
        rw [addServices_lookup_not_mem _ _ hnm]
      · dsimp only
        by_cases hnan : c.isNaN = true
        · rw [if_pos hnan, if_pos hnan]
          rw [addServices_lookup_not_mem _ _ hnm]
        · rw [if_neg hnan, if_neg hnan]
          rw [addServices_lookup_not_mem _ _ hnm]
          rw [hk]
          exact alookup_assocAdd_same m svc c
    · rw [alookup, if_neg hk]
      have step : alookup
          (match p.2 with
           | some c => if c.isNaN = true then m else assocAdd m p.1 c
           | none => m) svc = alookup m svc := by
        rcases p.2 with _ | c
        · rfl
        · dsimp only
          by_cases hnan : c.isNaN = true
          · rw [if_pos hnan]
          · rw [if_neg hnan]
            exact alookup_assocAdd_ne m c (fun e => hk e.symm)
      rw [ih _ hnd.2, step]

lemma jsOr0_num (q : ℚ) : jsOr0 (JSNum.num q) = JSNum.num q := rfl

lemma jsAdd_num (a b : ℚ) : jsAdd (JSNum.num a) (JSNum.num b) = JSNum.num (a + b) := rfl

lemma contribs_cons (r : SystemResult) (rs : List SystemResult) (svc : String) :
    contribs (r :: rs) svc
      = (match
          (match alookup r.services svc with
           | some (some c) => if c.isNaN = true then none else some c
           | _ => none) with
         | some c => c :: contribs rs svc
         | none => contribs rs svc) := by
  rw [contribs, List.filterMap_cons]
  rcases alookup r.services svc with _ | v
  · rfl
  · rcases v with _ | c
    · rfl
    · dsimp only
      by_cases hnan : c.isNaN = true
      · rw [if_pos hnan]
        rfl
      · rw [if_neg hnan]
        rfl

lemma combineServices_lookup (rs : List SystemResult) (svc : String)
    (m : List (String × JSNum))
    (hnd : ∀ r ∈ rs, (r.services.map Prod.fst).Nodup)
    (hfin : ∀ r ∈ rs, ∀ p ∈ r.services, ∀ c, p.2 = some c → c.isNaN = false →
      ∃ q, c = JSNum.num q)
    (hm : ∀ v, alookup m svc = some v → ∃ q, v = JSNum.num q) :
    alookup (rs.foldl (fun acc r => addServices acc r.services) m) svc
      = (match alookup m svc with
         | none =>
             if contribs rs svc = [] then none
             else some (JSNum.num (((contribs rs svc).map toQ).sum))
         | some v => some (JSNum.num (toQ v + ((contribs rs svc).map toQ).sum))) := by
  induction rs generalizing m with
  | nil =>
    rw [List.foldl_nil]
    rcases hv : alookup m svc with _ | v
    · simp [contribs]
    · obtain ⟨q, rfl⟩ := hm v hv
      simp [contribs, toQ]
  | cons r rs ih =>
    rw [List.foldl_cons]
    have hL3 := addServices_lookup m r.services svc (hnd r (List.mem_cons_self r rs))
    have hnd' : ∀ r' ∈ rs, (r'.services.map Prod.fst).Nodup :=
      fun r' hr' => hnd r' (List.mem_cons_of_mem _ hr')
    have hfin' : ∀ r' ∈ rs, ∀ p ∈ r'.services, ∀ c, p.2 = some c → c.isNaN = false →
        ∃ q, c = JSNum.num q :=
      fun r' hr' => hfin r' (List.mem_cons_of_mem _ hr')
    rw [contribs_cons]
    rcases hrl : alookup r.services svc with _ | v
    · rw [hrl] at hL3
      dsimp only at hL3 ⊢
      rw [ih _ hnd' hfin' (by rw [hL3]; exact hm)]
      rw [hL3]
    · rcases v with _ | c
      · rw [hrl] at hL3
        dsimp only at hL3 ⊢
        rw [ih _ hnd' hfin' (by rw [hL3]; exact hm)]
        rw [hL3]
      · rw [hrl] at hL3
        dsimp only at hL3 ⊢
        by_cases hnan : c.isNaN = true
        · rw [if_pos hnan] at hL3 ⊢
          dsimp only
          rw [ih _ hnd' hfin' (by rw [hL3]; exact hm)]
          rw [hL3]
        · rw [if_neg hnan] at hL3 ⊢
          dsimp only
          obtain ⟨qc, rfl⟩ := hfin r (List.mem_cons_self r rs) _ (alookup_mem hrl) c rfl
            (Bool.not_eq_true _ ▸ hnan)
          rcases hmv : alookup m svc with _ | v
          · rw [hmv] at hL3
            dsimp only [Option.getD] at hL3
            rw [jsOr0_num, jsAdd_num] at hL3
            rw [ih _ hnd' hfin' (by rw [hL3]; rintro v hv; rw [Option.some_inj] at hv
                                    exact ⟨0 + qc, hv.symm⟩)]
            rw [hL3]
            dsimp only
            have hne : JSNum.num qc :: contribs rs svc ≠ [] := by simp
            rw [if_neg hne]
            by_cases hc : contribs rs svc = []
            · rw [hc]
              simp [toQ]
            · congr 1
              rw [List.map_cons, List.sum_cons]
              simp only [toQ]
              ring_nf
          · obtain ⟨qv, rfl⟩ := hm v hmv
            rw [hmv] at hL3
            dsimp only [Option.getD] at hL3
            rw [jsOr0_num, jsAdd_num] at hL3
            rw [ih _ hnd' hfin' (by rw [hL3]; rintro v hv; rw [Option.some_inj] at hv
                                    exact ⟨qv + qc, hv.symm⟩)]
            rw [hL3]
            dsimp only
            congr 1
            rw [List.map_cons, List.sum_cons]
            simp only [toQ]
            ring_nf

lemma mem_setAdd_of_mem {l : List String} {x : String} (y : String) (h : x ∈ l) :
    x ∈ setAdd l y := by
  rw [setAdd]
  split
  · exact h
  · exact List.mem_append_left _ h

lemma mem_setAdd_self (l : List String) (y : String) : y ∈ setAdd l y := by
  rw [setAdd]
  split
  · assumption
  · exact List.mem_append_right _ (List.mem_singleton.2 rfl)

lemma mem_foldl_setAdd_acc {acc : List String} {x : String} (l : List String) (h : x ∈ acc) :
    x ∈ l.foldl setAdd acc := by
  induction l generalizing acc with
  | nil => exact h
  | cons y l ih => exact ih (mem_setAdd_of_mem y h)

lemma mem_foldl_setAdd {l : List String} {x : String} (acc : List String) (h : x ∈ l) :
    x ∈ l.foldl setAdd acc := by
  induction l generalizing acc with
  | nil => simp at h
  | cons y l ih =>
    rw [List.foldl_cons]
    rcases List.mem_cons.1 h with rfl | h'
    · exact mem_foldl_setAdd_acc l (mem_setAdd_self acc x)
    · exact ih _ h'

lemma mem_foldl_union_acc {s : String} (rs : List SystemResult) (acc : List String)
    (h : s ∈ acc) :
    s ∈ rs.foldl (fun acc r => r.supportedServices.foldl setAdd acc) acc := by
  induction rs generalizing acc with
  | nil => exact h
  | cons r rs ih =>
    rw [List.foldl_cons]
    exact ih _ (mem_foldl_setAdd_acc _ h)

lemma mem_supported_union {rs : List SystemResult} {r : SystemResult} {s : String}
    (acc : List String) (hr : r ∈ rs) (hs : s ∈ r.supportedServices) :
    s ∈ rs.foldl (fun acc r => r.supportedServices.foldl setAdd acc) acc := by
  induction rs generalizing acc with
  | nil => simp at hr
  | cons r' rs ih =>
    rw [List.foldl_cons]
    rcases List.mem_cons.1 hr with rfl | hr'
    · exact mem_foldl_union_acc rs _ (mem_foldl_setAdd acc hs)
    · exact ih _ hr'

lemma startsWithL_refl (l : List Char) : startsWithL l l = true := by
  induction l with
  | nil => rfl
  | cons c cs ih => simp [startsWithL, ih]

lemma replaceVarGo_nil (key val : List Char) (fuel : ℕ) :
    replaceVarGo key val fuel [] = [] := by
  cases fuel <;> rfl

lemma replaceVarL_dollar_key (key val : List Char) :
    replaceVarL key val ('$' :: key) = val := by
  show replaceVarGo key val (('$' :: key).length + 1) ('$' :: key) = val
  rw [List.length_cons, replaceVarGo, if_pos]
  · rw [List.drop_length, replaceVarGo_nil, List.append_nil]
  · refine ⟨rfl, startsWithL_refl key, ?_⟩
    rw [List.drop_length]
    rfl

/-- C1: the expression evaluator derives its result only from the
sanitized substituted string, the sanitizer keeps only the arithmetic
character class, and the injection probe string evaluates to 0 under
every context without reaching any non-arithmetic behavior (its only
effect is a failed arithmetic parse caught as 0). -/
theorem C1_sanitized_expression_safety :
    (∀ (e₁ e₂ : String) (ctx₁ ctx₂ : Ctx),
       sanitize (substPipeline e₁ ctx₁) = sanitize (substPipeline e₂ ctx₂) →
       evaluateExpression e₁ ctx₁ = evaluateExpression e₂ ctx₂)
    ∧ (∀ s : String, (sanitize s).data.all isAllowedChar = true)
    ∧ (∀ ctx : Ctx, evaluateExpression "ignore(); return 1+1" ctx = JSNum.num 0) := by
  refine ⟨?_, ?_, ?_⟩
  · intro e₁ e₂ ctx₁ ctx₂ h
    rw [evaluateExpression, evaluateExpression, h]
  · intro s
    rw [sanitize]
    rw [List.all_eq_true]
    intro c hc
    exact List.of_mem_filter hc
  · intro ctx
    have hd : '$' ∉ ("ignore(); return 1+1" : String).data := by decide
    rw [evaluateExpression, substPipeline_no_dollar ctx hd]
    with_unfolding_all decide

/-- C1 witness: two strings with identical sanitized forms evaluate
identically, and the probe string yields 0 in a nonempty context. -/
theorem C1_sanitized_expression_safety_witness :
    evaluateExpression "1+1;" [] = evaluateExpression "1+1" []
    ∧ evaluateExpression "ignore(); return 1+1" [("ignore", 3)] = JSNum.num 0 :=
  ⟨C1_sanitized_expression_safety.1 "1+1;" "1+1" [] [] (by decide),
   C1_sanitized_expression_safety.2.2 [("ignore", 3)]⟩

/-- C4 counterexample: the claim says a non-finite evaluation result is
returned as 0, but the source only filters NaN: dividing one by zero
yields Infinity and evaluateExpression returns that Infinity, not 0. -/
theorem C4_nonfinite_counterexample :
    evaluateExpression "1/0" [] = JSNum.posInf ∧ JSNum.posInf ≠ JSNum.num 0 := by
  constructor
  · with_unfolding_all decide
  · with_unfolding_all decide

/-- C4 amended: evaluateExpression returns 0 when the sanitized string is
empty or whitespace-only, when evaluating it throws, or when the result
is NaN; any other result is returned as is, including a non-finite
Infinity (which the isNaN check does not convert to 0). -/
theorem C4_expression_zero_policy_amended :
    (∀ (e : String) (ctx : Ctx), trimEmpty (sanitize (substPipeline e ctx)) = true →
       evaluateExpression e ctx = JSNum.num 0)
    ∧ (∀ (e : String) (ctx : Ctx), jsEval (sanitize (substPipeline e ctx)).data = none →
       evaluateExpression e ctx = JSNum.num 0)
    ∧ (∀ (e : String) (ctx : Ctx) (r : JSNum),
       jsEval (sanitize (substPipeline e ctx)).data = some r → r.isNaN = true →
       evaluateExpression e ctx = JSNum.num 0)
    ∧ (∀ (e : String) (ctx : Ctx) (r : JSNum),
       trimEmpty (sanitize (substPipeline e ctx)) = false →
       jsEval (sanitize (substPipeline e ctx)).data = some r → r.isNaN = false →
       evaluateExpression e ctx = r) := by
  refine ⟨?_, ?_, ?_, ?_⟩
  · intro e ctx h
    rw [evaluateExpression, evalSafe, if_pos h]
  · intro e ctx h
    by_cases ht : trimEmpty (sanitize (substPipeline e ctx)) = true
    · rw [evaluateExpression, evalSafe, if_pos ht]
    · rw [evaluateExpression, evalSafe, if_neg ht, h]
  · intro e ctx r h hnan
    by_cases ht : trimEmpty (sanitize (substPipeline e ctx)) = true
    · rw [evaluateExpression, evalSafe, if_pos ht]
    · rw [evaluateExpression, evalSafe, if_neg ht, h]
      dsimp only
      rw [if_pos hnan]
  · intro e ctx r ht h hnan
    rw [evaluateExpression, evalSafe, if_neg (by rw [ht]; exact fun e => nomatch e), h]
    dsimp only
    rw [if_neg (by rw [hnan]; exact fun e => nomatch e)]

/-- C4 witness: the empty-after-sanitization case yields 0 and the
Infinity case returns Infinity unchanged. -/
theorem C4_expression_zero_policy_amended_witness :
    evaluateExpression "abc" [] = JSNum.num 0
    ∧ evaluateExpression "1/0" [] = JSNum.posInf :=
  ⟨C4_expression_zero_policy_amended.1 "abc" [] (by decide),
   C4_expression_zero_policy_amended.2.2.2 "1/0" [] JSNum.posInf
     (by decide) (by with_unfolding_all decide) (by decide)⟩

/-- C9 counterexample: at the very input the claim cites (key rate a
proper prefix of the reference rate_advanced), the substitution pass is
not corrupted: the word-boundary anchor prevents the prefix key from
matching inside the longer reference, so the full value of rate_advanced
is substituted and evaluated. -/
theorem C9_prefix_substitution_counterexample :
    substPipeline "$rate_advanced" [("rate", 5), ("rate_advanced", 7)] = "7"
    ∧ evaluateExpression "$rate_advanced" [("rate", 5), ("rate_advanced", 7)] = JSNum.num 7 := by
  constructor
  · decide
  · with_unfolding_all decide

/-- C9 amended: the substitution regex ends in a word-boundary anchor, so
a context key that is a proper prefix of a longer referenced variable
name continuing with a word character is never substituted inside the
longer reference: for the cited pair rate and rate_advanced, the pipeline
substitutes exactly the value of rate_advanced in either context
iteration order, and evaluation agrees between the two orders. -/
theorem C9_prefix_substitution_amended :
    ∀ v₁ v₂ : ℚ,
      substPipeline "$rate_advanced" [("rate", v₁), ("rate_advanced", v₂)] = numToString v₂
      ∧ substPipeline "$rate_advanced" [("rate_advanced", v₂), ("rate", v₁)] = numToString v₂
      ∧ evaluateExpression "$rate_advanced" [("rate", v₁), ("rate_advanced", v₂)]
          = evaluateExpression "$rate_advanced" [("rate_advanced", v₂), ("rate", v₁)] := by
  intro v₁ v₂
  have hstep1 : ∀ X : String, replaceVar "$rate_advanced" "rate" X = "$rate_advanced" := by
    intro X
    show (⟨replaceVarL ("rate" : String).data X.data ("$rate_advanced" : String).data⟩ : String)
      = "$rate_advanced"
    rw [replaceVarL_of_hasMatch_false (by decide)]
  have hdata : ("$rate_advanced" : String).data = '$' :: ("rate_advanced" : String).data := rfl
  have hstep2 : ∀ X : String, replaceVar "$rate_advanced" "rate_advanced" X = X := by
    intro X
    show (⟨replaceVarL ("rate_advanced" : String).data X.data
      ("$rate_advanced" : String).data⟩ : String) = X
    rw [hdata, replaceVarL_dollar_key]
  have hstepnd : ∀ (X : String) (key : String), '$' ∉ X.data → replaceVar X key (numToString v₁) = X := by
    intro X key h
    show (⟨replaceVarL key.data (numToString v₁).data X.data⟩ : String) = X
    rw [replaceVarL_no_dollar h]
  have h1 : substPass1 "$rate_advanced" [("rate", v₁), ("rate_advanced", v₂)]
      = numToString v₂ := by
    show replaceVar (replaceVar "$rate_advanced" "rate" (numToString v₁)) "rate_advanced"
      (numToString v₂) = numToString v₂
    rw [hstep1, hstep2]
  have h2 : substPass1 "$rate_advanced" [("rate_advanced", v₂), ("rate", v₁)]
      = numToString v₂ := by
    show replaceVar (replaceVar "$rate_advanced" "rate_advanced" (numToString v₂)) "rate"
      (numToString v₁) = numToString v₂
    rw [hstep2]
    exact hstepnd _ _ (numToString_no_dollar v₂)
  have hp1 : substPipeline "$rate_advanced" [("rate", v₁), ("rate_advanced", v₂)]
      = numToString v₂ := by
    rw [substPipeline, h1, substPass2_no_dollar (numToString_no_dollar v₂)]
  have hp2 : substPipeline "$rate_advanced" [("rate_advanced", v₂), ("rate", v₁)]
      = numToString v₂ := by
    rw [substPipeline, h2, substPass2_no_dollar (numToString_no_dollar v₂)]
  refine ⟨hp1, hp2, ?_⟩
  rw [evaluateExpression, evaluateExpression, hp1, hp2]

lemma jsMul_num (a b : ℚ) : jsMul (JSNum.num a) (JSNum.num b) = JSNum.num (a * b) := rfl

/-- C2: for contexts whose multiplier levels are rational numbers with
integer distance above one (the stacking levels the policy is defined
for), the multiplier formula returns the evaluated base times the
product over entries of factor to the power level minus one, entries at
or below level one (or absent, defaulting to one) contributing factor
one; in particular base 100 with factor 1.5 at level 3 yields 225. -/
theorem C2_multiplier_exponential_stacking :
    (∀ (base : String) (ms : List Mult) (ctx : Ctx) (b : ℚ),
       evaluateExpression base ctx = JSNum.num b →
       (∀ m ∈ ms, 1 < ctxGetOr1 ctx m.«variable» →
         (ctxGetOr1 ctx m.«variable» - 1).den = 1) →
       evaluateMultiplierFormula base ms ctx
         = JSNum.num (b * (ms.map
             (fun m =>
               if 1 < ctxGetOr1 ctx m.«variable» then
                 m.factor ^ (ctxGetOr1 ctx m.«variable» - 1).num.toNat
               else 1)).prod))
    ∧ evaluateMultiplierFormula "100" [Mult.mk "x" (3/2)] [("x", 3)] = JSNum.num 225 := by
  constructor
  · intro base ms ctx b hb h
    rw [evaluateMultiplierFormula]
    dsimp only
    rw [hb, multiplier_foldl_eq ctx ms 1 h, one_mul, jsMul_num]
    simp [JSNum.isNaN]
  · with_unfolding_all decide

/-- C2 witness: the general stacking identity applied at the concrete
example, reducing to 100 times 1.5 squared. -/
theorem C2_multiplier_exponential_stacking_witness :
    evaluateMultiplierFormula "100" [Mult.mk "x" (3/2)] [("x", 3)]
      = JSNum.num (100 * ((3 : ℚ)/2) ^ 2) :=
  (C2_multiplier_exponential_stacking.1 "100" [Mult.mk "x" (3/2)] [("x", 3)] 100
      (by with_unfolding_all decide) (by with_unfolding_all decide)).trans
    (by with_unfolding_all decide)

/-- C3 counterexample: the claim quantifies over every tiered formula,
but with a negative rate a larger volume produces a strictly smaller
cost: volume 10 costs minus ten while volume 5 costs minus five. -/
theorem C3_tiered_monotonicity_counterexample :
    evaluateTieredFormula "v" [Tier.mk none (RateSpec.num (-1))] [("v", 5)] = JSNum.num (-5)
    ∧ evaluateTieredFormula "v" [Tier.mk none (RateSpec.num (-1))] [("v", 10)] = JSNum.num (-10)
    ∧ (5 : ℚ) < 10 ∧ (-10 : ℚ) < -5 :=
  ⟨by with_unfolding_all decide, by with_unfolding_all decide, by norm_num, by norm_num⟩

/-- C3 amended: over contexts agreeing outside the volume variable, with
every tier limit nonnegative and every rate evaluating to the same
nonnegative number in both contexts, a larger volume never produces a
smaller tiered cost; a volume equal to the sum of the first tiers with
positive limits costs exactly the sum of limit times rate over those
tiers; and the cited example evaluates to 32.5. -/
theorem C3_tiered_monotonicity_boundary_amended :
    (∀ (vv : String) (ts : List Tier) (ctx₁ ctx₂ : Ctx) (rq : Tier → ℚ),
       (∀ k, k ≠ vv → alookup ctx₁ k = alookup ctx₂ k) →
       (∀ t ∈ ts, rateQ t ctx₁ = JSNum.num (rq t) ∧ rateQ t ctx₂ = JSNum.num (rq t)
         ∧ 0 ≤ rq t) →
       (∀ t ∈ ts, ∀ l, t.limit = some l → 0 ≤ l) →
       ctxGetD0 ctx₁ vv ≤ ctxGetD0 ctx₂ vv →
       ∃ c₁ c₂ : ℚ, evaluateTieredFormula vv ts ctx₁ = JSNum.num c₁
         ∧ evaluateTieredFormula vv ts ctx₂ = JSNum.num c₂ ∧ c₁ ≤ c₂)
    ∧ (∀ (vv : String) (ctx : Ctx) (lrs : List (ℚ × ℚ)) (back : List Tier),
       (∀ p ∈ lrs, 0 < p.1) →
       ctxGetD0 ctx vv = (lrs.map Prod.fst).sum →
       evaluateTieredFormula vv
         (lrs.map (fun p => Tier.mk (some p.1) (RateSpec.num p.2)) ++ back) ctx
         = JSNum.num ((lrs.map (fun p => p.1 * p.2)).sum))
    ∧ evaluateTieredFormula "volume"
        [Tier.mk (some 1000) (RateSpec.num (1/40)), Tier.mk none (RateSpec.num (3/200))]
        [("volume", 1500)] = JSNum.num (65/2) := by
  refine ⟨?_, ?_, by with_unfolding_all decide⟩
  · intro vv ts ctx₁ ctx₂ rq hk hr hl hv
    refine ⟨tieredCostQ rq ts (ctxGetD0 ctx₁ vv) 0,
      tieredCostQ rq ts (ctxGetD0 ctx₂ vv) 0, ?_, ?_, ?_⟩
    · rw [evaluateTieredFormula]
      exact tieredGo_eq_costQ rq (fun t ht => (hr t ht).1) _ _
    · rw [evaluateTieredFormula]
      exact tieredGo_eq_costQ rq (fun t ht => (hr t ht).2.1) _ _
    · exact tieredCostQ_mono rq ts (fun t ht => (hr t ht).2.2) hl hv (le_refl 0)
  · intro vv ctx lrs back hpos hvol
    rw [evaluateTieredFormula, hvol, tieredGo_boundary ctx lrs back hpos 0, zero_add]

/-- C3 witness: monotonicity applied to volumes 1000 and 1500 of the
cited tier table, and the boundary identity applied at the first tier
boundary. -/
theorem C3_tiered_monotonicity_boundary_amended_witness :
    (∃ c₁ c₂ : ℚ,
      evaluateTieredFormula "volume"
        [Tier.mk (some 1000) (RateSpec.num (1/40)), Tier.mk none (RateSpec.num (3/200))]
        [("volume", 1000)] = JSNum.num c₁
      ∧ evaluateTieredFormula "volume"
          [Tier.mk (some 1000) (RateSpec.num (1/40)), Tier.mk none (RateSpec.num (3/200))]
          [("volume", 1500)] = JSNum.num c₂
      ∧ c₁ ≤ c₂)
    ∧ evaluateTieredFormula "volume"
        [Tier.mk (some 1000) (RateSpec.num (1/40))] [("volume", 1000)]
        = JSNum.num (([((1000 : ℚ), (1 : ℚ)/40)].map (fun p => p.1 * p.2)).sum) := by
  constructor
  · refine C3_tiered_monotonicity_boundary_amended.1 "volume"
      [Tier.mk (some 1000) (RateSpec.num (1/40)), Tier.mk none (RateSpec.num (3/200))]
      [("volume", 1000)] [("volume", 1500)]
      (fun t => match t.rate with | RateSpec.num q => q | RateSpec.expr _ => 0)
      ?_ (by with_unfolding_all decide) (by with_unfolding_all decide)
      (by with_unfolding_all decide)
    intro k hk
    have hne : ¬(("volume" : String) = k) := fun e => hk e.symm
    simp [alookup, hne]
  · have h := C3_tiered_monotonicity_boundary_amended.2.1 "volume" [("volume", 1000)]
      [((1000 : ℚ), (1 : ℚ)/40)] []
      (by intro p hp; rw [List.mem_singleton] at hp; rw [hp]; norm_num)
      (by norm_num [ctxGetD0, alookup])
    simpa using h

/-- C10: a tier whose declared limit is 0 (falsy, like null or a missing
limit) absorbs all remaining volume at its rate: when the volume is
positive, the cost of the tier list starting with such a tier is the
whole volume times that tier rate, independent of every tier listed
after it, which is therefore never consumed. -/
theorem C10_zero_limit_absorbs_remainder :
    ∀ (vv : String) (ctx : Ctx) (rate : RateSpec) (rest : List Tier),
      0 < ctxGetD0 ctx vv →
      evaluateTieredFormula vv (Tier.mk (some 0) rate :: rest) ctx
        = jsMul (JSNum.num (ctxGetD0 ctx vv)) (rateQ (Tier.mk (some 0) rate) ctx)
      ∧ evaluateTieredFormula vv (Tier.mk none rate :: rest) ctx
        = jsMul (JSNum.num (ctxGetD0 ctx vv)) (rateQ (Tier.mk none rate) ctx) := by
  intro vv ctx rate rest hv
  constructor
  · rw [evaluateTieredFormula, tieredGo, if_neg (by push_neg; exact hv)]
    have hvol : tierVol (Tier.mk (some 0) rate) (ctxGetD0 ctx vv) = ctxGetD0 ctx vv := by
      simp [tierVol]
    rw [hvol, sub_self, tieredGo_nonpos (le_refl 0), jsAdd_zero_left]
  · rw [evaluateTieredFormula, tieredGo, if_neg (by push_neg; exact hv)]
    have hvol : tierVol (Tier.mk none rate) (ctxGetD0 ctx vv) = ctxGetD0 ctx vv := by
      simp [tierVol]
    rw [hvol, sub_self, tieredGo_nonpos (le_refl 0), jsAdd_zero_left]

/-- C10 witness: a zero-limit head tier with rate 5 and volume 4 costs
20 and the following tier is never consumed. -/
theorem C10_zero_limit_absorbs_remainder_witness :
    evaluateTieredFormula "v" [Tier.mk (some 0) (RateSpec.num 5), Tier.mk (some 10) (RateSpec.num 1)]
      [("v", 4)] = JSNum.num 20 :=
  ((C10_zero_limit_absorbs_remainder "v" [("v", 4)] (RateSpec.num 5)
      [Tier.mk (some 10) (RateSpec.num 1)] (by with_unfolding_all decide)).1).trans
    (by with_unfolding_all decide)

/-- C5: the aggregation loop of calculateTotalCost processes every
configured service and returns normally (the services map lists exactly
the configured service keys in order); a service whose evaluation throws
is recorded with cost 0 and changes neither the supported nor the
unsupported list nor the running total; and a missing formula is exactly
such a throwing evaluation. -/
theorem C5_aggregation_error_isolation :
    (∀ (formulas : List (String × Formula)) (sys vars : Ctx)
       (params : List (String × Ctx)),
       ((calculateTotalCost formulas sys vars params).services).map Prod.fst
         = formulas.map Prod.fst)
    ∧ (∀ (formulas : List (String × Formula)) (sys vars : Ctx)
       (params : List (String × Ctx)) (st : AggState) (svc : String) (e : String),
       checkServiceSupport formulas svc sys = true →
       calculateServiceCost formulas sys vars ((alookup params svc).getD []) svc
         = Except.error e →
       (serviceStep formulas sys vars params st svc).costs
           = st.costs ++ [(svc, some (JSNum.num 0))]
       ∧ (serviceStep formulas sys vars params st svc).supported = st.supported
       ∧ (serviceStep formulas sys vars params st svc).unsupported = st.unsupported
       ∧ (serviceStep formulas sys vars params st svc).total = st.total)
    ∧ (∀ (formulas : List (String × Formula)) (sys vars ps : Ctx) (svc : String),
       alookup formulas svc = none →
       calculateServiceCost formulas sys vars ps svc
         = Except.error ("No formula found for service type: " ++ svc)) := by
  refine ⟨?_, ?_, ?_⟩
  · intro formulas sys vars params
    rw [calculateTotalCost]
    dsimp only
    rw [foldl_serviceStep_costs_keys]
    simp
  · intro formulas sys vars params st svc e hsup herr
    rw [serviceStep, if_neg (by rw [hsup]; exact fun h => nomatch h), herr]
    exact ⟨rfl, rfl, rfl, rfl⟩
  · intro formulas sys vars ps svc hnone
    rw [calculateServiceCost, hnone]

/-- C5 witness: a one-service configuration is fully processed, and the
step for a service with no formula (whose evaluation therefore throws)
records cost 0 and leaves the lists and total unchanged. -/
theorem C5_aggregation_error_isolation_witness :
    ((calculateTotalCost [("a", Formula.num 5)] [] [] []).services).map Prod.fst = ["a"]
    ∧ (serviceStep [("a", Formula.num 5)] [] [] [] (AggState.mk [] [] [] (JSNum.num 0))
        "ghost").costs = [("ghost", some (JSNum.num 0))]
    ∧ calculateServiceCost [("a", Formula.num 5)] [] [] [] "ghost"
        = Except.error ("No formula found for service type: " ++ "ghost") := by
  refine ⟨C5_aggregation_error_isolation.1 [("a", Formula.num 5)] [] [] [], ?_,
    C5_aggregation_error_isolation.2.2 [("a", Formula.num 5)] [] [] [] "ghost" rfl⟩
  exact (C5_aggregation_error_isolation.2.1 [("a", Formula.num 5)] [] [] []
    (AggState.mk [] [] [] (JSNum.num 0)) "ghost" ("No formula found for service type: ghost")
    (by with_unfolding_all decide) (by with_unfolding_all decide)).1

/-- C6: the support check returns true exactly when every extracted
cost-looking variable of the service formula is a key of the system
components; it depends only on the key set, not on any value; and a
formula referencing the foo_cost variable is unsupported by every system
lacking that key. -/
theorem C6_service_support_presence_check :
    (∀ (formulas : List (String × Formula)) (svc : String) (sys : Ctx),
       checkServiceSupport formulas svc sys = true
         ↔ ∀ v ∈ getRequiredVariables formulas svc, v ∈ sys.map Prod.fst)
    ∧ (∀ (formulas : List (String × Formula)) (svc : String) (sys₁ sys₂ : Ctx),
       sys₁.map Prod.fst = sys₂.map Prod.fst →
       checkServiceSupport formulas svc sys₁ = checkServiceSupport formulas svc sys₂)
    ∧ (∀ sys : Ctx, "foo_cost" ∉ sys.map Prod.fst →
       checkServiceSupport [("s", Formula.str "$foo_cost * 2")] "s" sys = false) := by
  have hiff : ∀ (formulas : List (String × Formula)) (svc : String) (sys : Ctx),
      checkServiceSupport formulas svc sys = true
        ↔ ∀ v ∈ getRequiredVariables formulas svc, v ∈ sys.map Prod.fst := by
    intro formulas svc sys
    rw [checkServiceSupport, List.all_eq_true]
    constructor
    · intro h v hv
      exact (alookup_isSome_iff sys v).1 (h v hv)
    · intro h v hv
      exact (alookup_isSome_iff sys v).2 (h v hv)
  refine ⟨hiff, ?_, ?_⟩
  · intro formulas svc sys₁ sys₂ hkeys
    rw [Bool.eq_iff_iff, hiff, hiff, hkeys]
  · intro sys h
    have hreq : getRequiredVariables [("s", Formula.str "$foo_cost * 2")] "s"
        = ["foo_cost"] := by with_unfolding_all decide
    cases hck : checkServiceSupport [("s", Formula.str "$foo_cost * 2")] "s" sys with
    | false => rfl
    | true =>
      exact absurd ((hiff _ _ _).1 hck "foo_cost"
        (by rw [hreq]; exact List.mem_singleton.2 rfl)) h

/-- C6 witness: the support check is invariant between two systems with
the same key and different values, and fails for the empty system. -/
theorem C6_service_support_presence_check_witness :
    checkServiceSupport [("s", Formula.str "$foo_cost * 2")] "s" [("foo_cost", 1)]
      = checkServiceSupport [("s", Formula.str "$foo_cost * 2")] "s" [("foo_cost", 2)]
    ∧ checkServiceSupport [("s", Formula.str "$foo_cost * 2")] "s" [] = false :=
  ⟨C6_service_support_presence_check.2.1 [("s", Formula.str "$foo_cost * 2")] "s"
      [("foo_cost", 1)] [("foo_cost", 2)] rfl,
   C6_service_support_presence_check.2.2 [] (by simp)⟩

/-- C8: in a conditional formula the first condition that holds selects
its then clause even when later conditions would also hold; when none
holds the else clause is evaluated, defaulting to 0 when absent; and in
the cited example with both guards true at x equal 20 the first branch
is taken. -/
theorem C8_conditional_first_match_wins :
    (∀ (pre : List Cond) (c : Cond) (post : List Cond) (els : Option ThenClause) (ctx : Ctx),
       (∀ c' ∈ pre, evaluateCondition c'.test ctx = false) →
       evaluateCondition c.test ctx = true →
       evaluateConditionalFormula (pre ++ c :: post) els ctx = evalThenClause c.thenClause ctx)
    ∧ (∀ (conds : List Cond) (ctx : Ctx),
       (∀ c ∈ conds, evaluateCondition c.test ctx = false) →
       (∀ th, evaluateConditionalFormula conds (some th) ctx = evalThenClause th ctx)
       ∧ evaluateConditionalFormula conds none ctx = JSNum.num 0)
    ∧ evaluateConditionalFormula
        [Cond.mk (CondTest.mk "x" CmpOp.gt 10) (ThenClause.expr "1"),
         Cond.mk (CondTest.mk "x" CmpOp.gt 5) (ThenClause.expr "2")] none [("x", 20)]
        = JSNum.num 1 := by
  refine ⟨evaluateConditionalFormula_first_match, ?_, by with_unfolding_all decide⟩
  intro conds ctx h
  constructor
  · intro th
    rw [evaluateConditionalFormula_no_match conds (some th) ctx h]
  · rw [evaluateConditionalFormula_no_match conds none ctx h]

/-- C8 witness: the first-match lemma applied with a false guard before
the matching one and a would-also-match guard after it. -/
theorem C8_conditional_first_match_wins_witness :
    evaluateConditionalFormula
      [Cond.mk (CondTest.mk "x" CmpOp.gt 30) (ThenClause.expr "9"),
       Cond.mk (CondTest.mk "x" CmpOp.gt 10) (ThenClause.expr "1"),
       Cond.mk (CondTest.mk "x" CmpOp.gt 5) (ThenClause.expr "2")] none [("x", 20)]
      = JSNum.num 1 :=
  (C8_conditional_first_match_wins.1
      [Cond.mk (CondTest.mk "x" CmpOp.gt 30) (ThenClause.expr "9")]
      (Cond.mk (CondTest.mk "x" CmpOp.gt 10) (ThenClause.expr "1"))
      [Cond.mk (CondTest.mk "x" CmpOp.gt 5) (ThenClause.expr "2")] none [("x", 20)]
      (by with_unfolding_all decide) (by with_unfolding_all decide)).trans
    (by with_unfolding_all decide)

/-- C7: the combined total is the sum of the per-system totals; the
combined entry of a service is the sum of its costs over exactly the
systems where it evaluated (present, non-null, non-NaN), absent when no
system contributed; a service is reported unsupported only when no
system in the selection supports it; and for two systems both
supporting transport at 10 and 15 the combined entry is 25 and the
total is the sum of both totals. -/
theorem C7_combine_system_results_sums :
    (∀ (rs : List SystemResult) (t : SystemResult → ℚ),
       (∀ r ∈ rs, r.total = JSNum.num (t r)) →
       (combineSystemResults rs).total = JSNum.num ((rs.map t).sum))
    ∧ (∀ (rs : List SystemResult) (svc : String),
       (∀ r ∈ rs, (r.services.map Prod.fst).Nodup) →
       (∀ r ∈ rs, ∀ p ∈ r.services, ∀ c, p.2 = some c → c.isNaN = false →
         ∃ q, c = JSNum.num q) →
       alookup (combineSystemResults rs).services svc
         = (if contribs rs svc = [] then none
            else some (JSNum.num (((contribs rs svc).map toQ).sum))))
    ∧ (∀ (rs : List SystemResult) (svc : String),
       svc ∈ (combineSystemResults rs).unsupportedServices →
       ∀ r ∈ rs, svc ∉ r.supportedServices)
    ∧ (alookup (combineSystemResults
          [SystemResult.mk (JSNum.num 10) [("transport", some (JSNum.num 10))] ["transport"] [],
           SystemResult.mk (JSNum.num 15) [("transport", some (JSNum.num 15))] ["transport"] []]
        ).services "transport" = some (JSNum.num 25)
       ∧ (combineSystemResults
          [SystemResult.mk (JSNum.num 10) [("transport", some (JSNum.num 10))] ["transport"] [],
           SystemResult.mk (JSNum.num 15) [("transport", some (JSNum.num 15))] ["transport"] []]
        ).total = JSNum.num 25) := by
  refine ⟨?_, ?_, ?_, by with_unfolding_all decide, by with_unfolding_all decide⟩
  · intro rs t h
    rw [combineSystemResults]
    dsimp only
    rw [combineTotal_foldl rs t h 0, zero_add]
  · intro rs svc hnd hfin
    rw [combineSystemResults]
    dsimp only
    rw [combineServices_lookup rs svc [] hnd hfin
      (fun v hv => absurd hv (by rw [alookup]; exact fun h => nomatch h))]
    rw [show alookup ([] : List (String × JSNum)) svc = none from rfl]
  · intro rs svc h r hr hs
    rw [combineSystemResults] at h
    dsimp only at h
    rw [List.mem_filter] at h
    exact absurd (mem_supported_union [] hr hs) (of_decide_eq_true h.2)

/-- C7 witness: the three general combination laws applied to concrete
selections: summed total, summed transport contributions, and a service
unsupported everywhere. -/
theorem C7_combine_system_results_sums_witness :
    (combineSystemResults
        [SystemResult.mk (JSNum.num 10) [("transport", some (JSNum.num 10))] ["transport"] [],
         SystemResult.mk (JSNum.num 15) [("transport", some (JSNum.num 15))] ["transport"] []]
      ).total
      = JSNum.num (([SystemResult.mk (JSNum.num 10) [("transport", some (JSNum.num 10))]
          ["transport"] [],
         SystemResult.mk (JSNum.num 15) [("transport", some (JSNum.num 15))] ["transport"] []].map
          (fun r => toQ r.total)).sum)
    ∧ alookup (combineSystemResults
        [SystemResult.mk (JSNum.num 10) [("transport", some (JSNum.num 10))] ["transport"] [],
         SystemResult.mk (JSNum.num 15) [("transport", some (JSNum.num 15))] ["transport"] []]
      ).services "transport" = some (JSNum.num 25)
    ∧ "storage" ∉ (SystemResult.mk (JSNum.num 0) [] [] ["storage"]).supportedServices := by
  refine ⟨?_, ?_, ?_⟩
  · exact C7_combine_system_results_sums.1 _ (fun r => toQ r.total)
      (by with_unfolding_all decide)
  · refine (C7_combine_system_results_sums.2.1 _ "transport"
      (by with_unfolding_all decide) ?_).trans (by with_unfolding_all decide)
    intro r hr p hp c hc hnan
    fin_cases hr <;> fin_cases hp <;>
      (simp only [Option.some_inj] at hc; exact ⟨_, hc.symm⟩)
  · exact C7_combine_system_results_sums.2.2.1
      [SystemResult.mk (JSNum.num 0) [] [] ["storage"]] "storage"
      (by with_unfolding_all decide) _ (List.mem_singleton.2 rfl)
